import Mathlib

/-!
Verification development for the Telegram-Monitor ingestion-and-backfill
pipeline and media download scheduler.

The definitions below are a shallow embedding of the persistence layer
(telegram_client/db.py) and of the ingestion / scheduling logic
(telegram_client/main.py).  Database tables are modelled as lists of rows,
SQL timestamps as integers supplied by the caller (the CURRENT_TIMESTAMP
argument is passed explicitly as a `now` parameter), and SQL ORDER BY as a
deterministic (stable) sort.  Each Python function keeps its source name.
-/

namespace TelegramMonitor

/-! ## Data model: messages -/

/-- One row of the `messages` table.  Identity is the composite key
(chat_id, msg_id, account_phone). -/
structure MessageRow where
  msg_id : Int
  chat_id : Int
  account_phone : String
  sender_id : Option Int
  text : Option String
  media_type : Option String
  media_file_path : Option String
  is_forward : Bool
  forward_sender_id : Option Int
  reply_to_msg_id : Option Int
  edit_date : Option Int
  views : Option Int
  forwards : Option Int
  pin : Bool
  silent : Bool
  is_post : Bool
  ttl_period : Option Int
  topic_id : Option Int
  has_log : Bool
  created_at : Int
  received_at : Int
deriving DecidableEq, Repr

/-- The argument list of `db.insert_message` (all columns are supplied;
`received_at` is set from CURRENT_TIMESTAMP by the statement itself). -/
structure InsertArgs where
  msg_id : Int
  chat_id : Int
  sender_id : Option Int
  text : Option String
  media_type : Option String
  media_file_path : Option String
  is_forward : Bool
  forward_sender_id : Option Int
  reply_to_msg_id : Option Int
  edit_date : Option Int
  views : Option Int
  forwards : Option Int
  pin : Bool
  silent : Bool
  is_post : Bool
  ttl_period : Option Int
  topic_id : Option Int
  has_log : Bool
  created_at : Int
  account_phone : String
deriving DecidableEq, Repr

/-- Does a row carry the composite identity (chat_id, msg_id, account_phone)? -/
def sameIdentity (chat_id msg_id : Int) (account_phone : String) (r : MessageRow) : Bool :=
  decide (r.chat_id = chat_id) && decide (r.msg_id = msg_id)
    && decide (r.account_phone = account_phone)

/-- The fresh row produced by the INSERT arm of `db.insert_message`. -/
def rowOfInsertArgs (a : InsertArgs) (now : Int) : MessageRow :=
  { msg_id := a.msg_id
    chat_id := a.chat_id
    account_phone := a.account_phone
    sender_id := a.sender_id
    text := a.text
    media_type := a.media_type
    media_file_path := a.media_file_path
    is_forward := a.is_forward
    forward_sender_id := a.forward_sender_id
    reply_to_msg_id := a.reply_to_msg_id
    edit_date := a.edit_date
    views := a.views
    forwards := a.forwards
    pin := a.pin
    silent := a.silent
    is_post := a.is_post
    ttl_period := a.ttl_period
    topic_id := a.topic_id
    has_log := a.has_log
    created_at := a.created_at
    received_at := now }

/-- The DO UPDATE arm of `db.insert_message`: every supplied column is
overwritten from EXCLUDED, `received_at` is refreshed; the conflict key
(chat_id, msg_id, account_phone) is untouched. -/
def applyConflictUpdate (a : InsertArgs) (now : Int) (r : MessageRow) : MessageRow :=
  { r with
    sender_id := a.sender_id
    text := a.text
    media_type := a.media_type
    media_file_path := a.media_file_path
    is_forward := a.is_forward
    forward_sender_id := a.forward_sender_id
    reply_to_msg_id := a.reply_to_msg_id
    edit_date := a.edit_date
    views := a.views
    forwards := a.forwards
    pin := a.pin
    silent := a.silent
    is_post := a.is_post
    ttl_period := a.ttl_period
    topic_id := a.topic_id
    has_log := a.has_log
    created_at := a.created_at
    received_at := now }

/-- `db.insert_message`: INSERT ... ON CONFLICT (chat_id, msg_id, account_phone)
DO UPDATE SET all supplied columns. -/
def insert_message (table : List MessageRow) (a : InsertArgs) (now : Int) : List MessageRow :=
  if table.any (sameIdentity a.chat_id a.msg_id a.account_phone) then
    table.map (fun r =>
      if sameIdentity a.chat_id a.msg_id a.account_phone r then applyConflictUpdate a now r
      else r)
  else
    table ++ [rowOfInsertArgs a now]

/-- The keyword arguments of `db.update_message`; `none` means the field was
not supplied and is skipped by the dynamic SET clause. -/
structure UpdateArgs where
  msg_id : Int
  chat_id : Option Int
  text : Option String
  media_type : Option String
  media_file_path : Option String
  edit_date : Option Int
  views : Option Int
  forwards : Option Int
  pin : Option Bool
  silent : Option Bool
  is_post : Option Bool
  ttl_period : Option Int
  topic_id : Option Int
deriving DecidableEq, Repr

/-- True when `db.update_message` builds an empty SET clause and returns
without touching the table. -/
def updateHasNoFields (a : UpdateArgs) : Bool :=
  a.text.isNone && a.media_type.isNone && a.media_file_path.isNone
    && a.edit_date.isNone && a.views.isNone && a.forwards.isNone
    && a.pin.isNone && a.silent.isNone && a.is_post.isNone
    && a.ttl_period.isNone && a.topic_id.isNone

/-- WHERE clause of `db.update_message`: msg_id always, chat_id only when
supplied (note: no account_phone filter in the source). -/
def matchesUpdate (a : UpdateArgs) (r : MessageRow) : Bool :=
  decide (r.msg_id = a.msg_id) &&
    (match a.chat_id with
     | none => true
     | some c => decide (r.chat_id = c))

/-- Apply the dynamic SET clause of `db.update_message` to one row: only the
supplied (non-None) fields are overwritten, `received_at` is refreshed. -/
def applyUpdate (a : UpdateArgs) (now : Int) (r : MessageRow) : MessageRow :=
  { r with
    text := match a.text with | some v => some v | none => r.text
    media_type := match a.media_type with | some v => some v | none => r.media_type
    media_file_path := match a.media_file_path with | some v => some v | none => r.media_file_path
    edit_date := match a.edit_date with | some v => some v | none => r.edit_date
    views := match a.views with | some v => some v | none => r.views
    forwards := match a.forwards with | some v => some v | none => r.forwards
    pin := match a.pin with | some v => v | none => r.pin
    silent := match a.silent with | some v => v | none => r.silent
    is_post := match a.is_post with | some v => v | none => r.is_post
    ttl_period := match a.ttl_period with | some v => some v | none => r.ttl_period
    topic_id := match a.topic_id with | some v => some v | none => r.topic_id
    received_at := now }

/-- `db.update_message`: dynamic UPDATE of only the supplied fields. -/
def update_message (table : List MessageRow) (a : UpdateArgs) (now : Int) : List MessageRow :=
  if updateHasNoFields a then table
  else table.map (fun r => if matchesUpdate a r then applyUpdate a now r else r)

/-! ## Data model: message log -/

/-- One row of the append-only `message_log` table. -/
structure LogRow where
  telegram_msg_id : Int
  chat_id : Int
  sender_id : Option Int
  text : Option String
  media_type : Option String
  media_file_path : Option String
  is_forward : Bool
  reply_to_msg_id : Option Int
  edited : Bool
  edit_date : Option Int
  created_at : Int
  account_phone : String
deriving DecidableEq, Repr

/-- Combined persistent state used by the message ingestor. -/
structure DBState where
  messages : List MessageRow
  message_log : List LogRow
deriving DecidableEq, Repr

/-- Modelled from the spec: the schema DDL (postgres/init_db.sql) is not part
of src/, and the spec fixes the MessageLogEntry identity as
(platform_msg_id, chat_id, account_id, created_at).  We model that identity
as a unique key of `message_log`. -/
def logIdentityExists (log : List LogRow) (telegram_msg_id chat_id : Int)
    (account_phone : String) (created_at : Int) : Bool :=
  log.any (fun e =>
    decide (e.telegram_msg_id = telegram_msg_id) && decide (e.chat_id = chat_id)
      && decide (e.account_phone = account_phone) && decide (e.created_at = created_at))

/-- `db.insert_message_log`: INSERT one version row, then mark the primary
message row has_log = TRUE.  Under the spec-modelled unique identity of
`message_log`, an insert of an already-present identity fails and leaves the
state unchanged (the statement raises before the has_log update runs). -/
def insert_message_log (st : DBState) (e : LogRow) : DBState :=
  if logIdentityExists st.message_log e.telegram_msg_id e.chat_id e.account_phone e.created_at then
    st
  else
    { messages := st.messages.map (fun r =>
        if sameIdentity e.chat_id e.telegram_msg_id e.account_phone r then
          { r with has_log := true }
        else r)
      message_log := st.message_log ++ [e] }

/-! ## Max message id and gap query -/

/-- msg_id values persisted for one (chat, account), in table order. -/
def msgIdsFor (table : List MessageRow) (chat_id : Int) (account_phone : String) : List Int :=
  (table.filter (fun r =>
    decide (r.chat_id = chat_id) && decide (r.account_phone = account_phone))).map
    (fun r => r.msg_id)

/-- The SELECT MAX(msg_id) core of `db.get_max_message_id_in_chat`; the Python
wrapper turns a NULL (empty chat) result into 0. -/
def get_max_message_id_core (table : List MessageRow) (chat_id : Int)
    (account_phone : String) : Int :=
  (msgIdsFor table chat_id account_phone).max?.getD 0

/-- `db.get_max_message_id_in_chat`: any exception from the query is caught and
turned into 0, as is an empty (NULL) aggregate. -/
def get_max_message_id_in_chat (queryResult : Except String (List MessageRow))
    (chat_id : Int) (account_phone : String) : Int :=
  match queryResult with
  | .error _ => 0
  | .ok table => get_max_message_id_core table chat_id account_phone

/-- One row returned by `db.get_chat_gaps`. -/
structure GapRow where
  gap_start : Int
  gap_end : Int
  gap_size : Int
deriving DecidableEq, Repr

/-- Adjacent-id comparison of the gap CTE: for each consecutive pair (p, n) of
the ordered ids with n - p > 1, report the range [p+1, n-1] of size n-p-1. -/
def gapsOfIds : List Int → List GapRow
  | [] => []
  | [_] => []
  | p :: n :: rest =>
    (if n - p > 1 then [⟨p + 1, n - 1, n - p - 1⟩] else []) ++ gapsOfIds (n :: rest)

/-- ORDER BY gap_size DESC, realised as a deterministic stable sort. -/
def gapSizeDesc (g1 g2 : GapRow) : Prop := g2.gap_size ≤ g1.gap_size

instance : DecidableRel gapSizeDesc := fun g1 g2 =>
  inferInstanceAs (Decidable (g2.gap_size ≤ g1.gap_size))

instance : IsTotal GapRow gapSizeDesc := ⟨fun g1 g2 => le_total g2.gap_size g1.gap_size⟩

instance : IsTrans GapRow gapSizeDesc := ⟨fun _ _ _ h1 h2 => le_trans h2 h1⟩

/-- `db.get_chat_gaps`: LAG over msg_id ordered ascending, gaps where
n - p > 1, ordered by gap_size descending, LIMIT applied last. -/
def get_chat_gaps (table : List MessageRow) (chat_id : Int) (account_phone : String)
    (limit : Nat) : List GapRow :=
  (((msgIdsFor table chat_id account_phone).insertionSort (· ≤ ·)
    |> gapsOfIds).insertionSort gapSizeDesc).take limit

/-- `db.mark_message_unrecoverable`: the placeholder row it inserts. -/
def placeholderRow (chat_id msg_id : Int) (account_phone reason : String)
    (now : Int) : MessageRow :=
  { msg_id := msg_id
    chat_id := chat_id
    account_phone := account_phone
    sender_id := none
    text := some ("__UNRECOVERABLE__:" ++ reason)
    media_type := some "unrecoverable"
    media_file_path := none
    is_forward := false
    forward_sender_id := none
    reply_to_msg_id := none
    edit_date := none
    views := none
    forwards := none
    pin := false
    silent := false
    is_post := false
    ttl_period := none
    topic_id := none
    has_log := false
    created_at := now
    received_at := now }

/-- `db.mark_message_unrecoverable`: INSERT the placeholder ON CONFLICT
(chat_id, msg_id, account_phone) DO NOTHING. -/
def mark_message_unrecoverable (table : List MessageRow) (chat_id msg_id : Int)
    (account_phone reason : String) (now : Int) : List MessageRow :=
  if table.any (sameIdentity chat_id msg_id account_phone) then table
  else table ++ [placeholderRow chat_id msg_id account_phone reason now]

/-! ## Data model: download queue and chat preferences -/

/-- Status of a `download_queue` row. -/
inductive DStatus where
  | pending
  | in_progress
  | done
  | failed
deriving DecidableEq, Repr

/-- One row of the `download_queue` table. -/
structure QueueItem where
  id : Nat
  msg_id : Int
  chat_id : Int
  chat_label : String
  media_dir : Option String
  file_size : Option Int
  file_unique_id : Option String
  account_phone : String
  status : DStatus
  path : Option String
  error : Option String
  attempts : Nat
  created_at : Int
  updated_at : Int
deriving DecidableEq, Repr

/-- One row of the `chat_preferences` table (media_download_enabled nullable). -/
structure ChatPref where
  chat_id : Int
  account_phone : String
  media_download_enabled : Option Bool
deriving DecidableEq, Repr

/-- COALESCE(cp.media_download_enabled, TRUE) through the LEFT JOIN: a missing
row or a NULL column both default to enabled.  This is also the logic of
`db.is_media_download_enabled`. -/
def prefEnabled (prefs : List ChatPref) (chat_id : Int) (account_phone : String) : Bool :=
  match prefs.find? (fun p =>
      decide (p.chat_id = chat_id) && decide (p.account_phone = account_phone)) with
  | none => true
  | some p => p.media_download_enabled.getD true

/-- The optional account_phone filter shared by the queue queries. -/
def accMatch (accF : Option String) (r : QueueItem) : Bool :=
  match accF with
  | none => true
  | some a => decide (r.account_phone = a)

/-- The WHERE clause shared by `db.fetch_pending_downloads` and
`db.fetch_recent_pending_downloads`. -/
def pendingEligible (prefs : List ChatPref) (accF : Option String) (r : QueueItem) : Bool :=
  decide (r.status = DStatus.pending) && prefEnabled prefs r.chat_id r.account_phone
    && accMatch accF r

/-- file_size ASC NULLS LAST, as a strict comparison on the nullable column. -/
def fileSizeLt : Option Int → Option Int → Bool
  | some x, some y => decide (x < y)
  | some _, none => true
  | none, _ => false

/-- ORDER BY file_size ASC NULLS LAST, created_at ASC, id ASC. -/
def fifoOrder (a b : QueueItem) : Prop :=
  (fileSizeLt a.file_size b.file_size
    || (decide (a.file_size = b.file_size)
        && (decide (a.created_at < b.created_at)
            || (decide (a.created_at = b.created_at) && decide (a.id ≤ b.id))))) = true

instance : DecidableRel fifoOrder := fun _ _ => inferInstanceAs (Decidable (_ = true))

/-- ORDER BY file_size ASC NULLS LAST, created_at DESC, id DESC. -/
def recentOrder (a b : QueueItem) : Prop :=
  (fileSizeLt a.file_size b.file_size
    || (decide (a.file_size = b.file_size)
        && (decide (b.created_at < a.created_at)
            || (decide (a.created_at = b.created_at) && decide (b.id ≤ a.id))))) = true

instance : DecidableRel recentOrder := fun _ _ => inferInstanceAs (Decidable (_ = true))

/-- `db.fetch_pending_downloads`: pending, preference-enabled rows of the
(optional) account, smallest files first, oldest first, LIMIT applied last. -/
def fetch_pending_downloads (table : List QueueItem) (prefs : List ChatPref)
    (limit : Nat) (accF : Option String) : List QueueItem :=
  ((table.filter (pendingEligible prefs accF)).insertionSort fifoOrder).take limit

/-- `db.fetch_recent_pending_downloads`: same filter, newest first. -/
def fetch_recent_pending_downloads (table : List QueueItem) (prefs : List ChatPref)
    (limit : Nat) (accF : Option String) : List QueueItem :=
  ((table.filter (pendingEligible prefs accF)).insertionSort recentOrder).take limit

/-- `db.enqueue_download`: INSERT ON CONFLICT (chat_id, msg_id, account_phone)
DO NOTHING; a fresh row starts in status pending with zero attempts. -/
def enqueue_download (table : List QueueItem) (msg_id chat_id : Int)
    (chat_label : String) (media_dir : Option String) (file_size : Option Int)
    (file_unique_id : Option String) (account_phone : String)
    (nextId : Nat) (now : Int) : List QueueItem :=
  if table.any (fun r =>
      decide (r.chat_id = chat_id) && decide (r.msg_id = msg_id)
        && decide (r.account_phone = account_phone)) then
    table
  else
    table ++ [{ id := nextId
                msg_id := msg_id
                chat_id := chat_id
                chat_label := chat_label
                media_dir := media_dir
                file_size := file_size
                file_unique_id := file_unique_id
                account_phone := account_phone
                status := DStatus.pending
                path := none
                error := none
                attempts := 0
                created_at := now
                updated_at := now }]

/-- ORDER BY updated_at DESC used by `db.get_downloaded_path_by_unique_id`. -/
def updatedDesc (a b : QueueItem) : Prop := b.updated_at ≤ a.updated_at

instance : DecidableRel updatedDesc := fun a b =>
  inferInstanceAs (Decidable (b.updated_at ≤ a.updated_at))

/-- `db.get_downloaded_path_by_unique_id`: latest done row with this
file_unique_id and a non-NULL path, if any. -/
def get_downloaded_path_by_unique_id (table : List QueueItem)
    (file_unique_id : Option String) : Option String :=
  match file_unique_id with
  | none => none
  | some u =>
    (((table.filter (fun r =>
        decide (r.file_unique_id = some u) && decide (r.status = DStatus.done)
          && r.path.isSome)).insertionSort updatedDesc).head?).bind (fun r => r.path)

/-- `db.mark_download_in_progress`: set status, bump attempts, touch
updated_at, by queue row id. -/
def mark_download_in_progress (table : List QueueItem) (row_id : Nat)
    (now : Int) : List QueueItem :=
  table.map (fun r =>
    if r.id = row_id then
      { r with status := DStatus.in_progress, attempts := r.attempts + 1, updated_at := now }
    else r)

/-- `db.mark_download_done`: set status done, record path, clear error. -/
def mark_download_done (table : List QueueItem) (row_id : Nat) (path : String)
    (now : Int) : List QueueItem :=
  table.map (fun r =>
    if r.id = row_id then
      { r with status := DStatus.done, path := some path, error := none, updated_at := now }
    else r)

/-- `db.mark_download_failed`: set status failed, record the error truncated
to 500 characters. -/
def mark_download_failed (table : List QueueItem) (row_id : Nat) (error : String)
    (now : Int) : List QueueItem :=
  table.map (fun r =>
    if r.id = row_id then
      { r with status := DStatus.failed, error := some (error.take 500), updated_at := now }
    else r)

/-- Condition of `db.reset_stuck_downloads`: in_progress, account filter, and
the optional age cut-off (time measured in minutes). -/
def stuckCondition (accF : Option String) (maxAgeMinutes : Option Int) (now : Int)
    (r : QueueItem) : Bool :=
  decide (r.status = DStatus.in_progress) && accMatch accF r
    && (match maxAgeMinutes with
        | none => true
        | some m => decide (r.updated_at < now - m))

/-- `db.reset_stuck_downloads`: rehydrate matching in_progress rows back to
pending; returns the updated table and the number of rows changed. -/
def reset_stuck_downloads (table : List QueueItem) (maxAgeMinutes : Option Int)
    (accF : Option String) (now : Int) : List QueueItem × Nat :=
  (table.map (fun r =>
      if stuckCondition accF maxAgeMinutes now r then
        { r with status := DStatus.pending, updated_at := now }
      else r),
   (table.filter (stuckCondition accF maxAgeMinutes now)).length)

/-! ## Message ingestor (main._process_message, new-message path) -/

/-- The fields of one inbound new-message event that reach the persistence
calls of `main._process_message`. -/
structure MsgEvent where
  msg_id : Int
  chat_id : Int
  sender_id : Option Int
  text : Option String
  media_type : Option String
  is_forward : Bool
  forward_sender_id : Option Int
  reply_to_msg_id : Option Int
  edit_date : Option Int
  views : Option Int
  forwards : Option Int
  pin : Bool
  silent : Bool
  is_post : Bool
  ttl_period : Option Int
  topic_id : Option Int
  created_at : Int
deriving DecidableEq, Repr

/-- LISTENER_HISTORIC_GAP_THRESHOLD default from main.py. -/
def HISTORIC_GAP_THRESHOLD_default : Int := 10

/-- The `db.insert_message` call of `main._process_message`: media_file_path
is always passed as NULL and has_log as FALSE on this path. -/
def eventInsertArgs (ev : MsgEvent) (account_phone : String) : InsertArgs :=
  { msg_id := ev.msg_id
    chat_id := ev.chat_id
    sender_id := ev.sender_id
    text := ev.text
    media_type := ev.media_type
    media_file_path := none
    is_forward := ev.is_forward
    forward_sender_id := ev.forward_sender_id
    reply_to_msg_id := ev.reply_to_msg_id
    edit_date := ev.edit_date
    views := ev.views
    forwards := ev.forwards
    pin := ev.pin
    silent := ev.silent
    is_post := ev.is_post
    ttl_period := ev.ttl_period
    topic_id := ev.topic_id
    has_log := false
    created_at := ev.created_at
    account_phone := account_phone }

/-- The `db.insert_message_log` call of `main._process_message`
(original version, edited = FALSE). -/
def eventLogRow (ev : MsgEvent) (account_phone : String) : LogRow :=
  { telegram_msg_id := ev.msg_id
    chat_id := ev.chat_id
    sender_id := ev.sender_id
    text := ev.text
    media_type := ev.media_type
    media_file_path := none
    is_forward := ev.is_forward
    reply_to_msg_id := ev.reply_to_msg_id
    edited := false
    edit_date := ev.edit_date
    created_at := ev.created_at
    account_phone := account_phone }

/-- Result of one `main._process_message` run: the updated state, the
reported gap, and whether the background catch-up was triggered. -/
structure ProcessResult where
  state : DBState
  gap : Option Int
  catchUpTriggered : Bool
deriving DecidableEq, Repr

/-- `main._process_message` (new-message path), restricted to its effects on
the messages and message_log tables: read the previous max id for the
(chat, account) before inserting, upsert the message, compute
gap = msg_id - previous_max, append the original-version log row, and
trigger the background catch-up iff gap > threshold. -/
def processNewMessage (threshold : Int) (st : DBState) (ev : MsgEvent)
    (account_phone : String) (now : Int) : ProcessResult :=
  let previous_max := get_max_message_id_core st.messages ev.chat_id account_phone
  let msgs1 := insert_message st.messages (eventInsertArgs ev account_phone) now
  let gap := ev.msg_id - previous_max
  let st2 := insert_message_log { messages := msgs1, message_log := st.message_log }
    (eventLogRow ev account_phone)
  { state := st2, gap := some gap, catchUpTriggered := gap > threshold }

/-- Ingest a list of events in order (as successive live deliveries). -/
def ingestAll (threshold : Int) (st : DBState) (evs : List MsgEvent)
    (account_phone : String) (now : Int) : DBState :=
  evs.foldl (fun s ev => (processNewMessage threshold s ev account_phone now).state) st

/-! ## Gap backfill over one id range (main.run_listener, PASO 2) -/

/-- The ids of the inclusive range [a, b]. -/
def rangeIds (a b : Int) : List Int :=
  (List.range (b + 1 - a).toNat).map (fun k : Nat => a + (k : Int))

/-- The gap-filling step of the global catch-up for one gap range: every
message the platform returned for the range is funnelled through the
ingestor, then every id of the range that was not seen is marked
unrecoverable with reason telegram_missing. -/
def processGapRange (threshold : Int) (st : DBState) (chat_id : Int)
    (account_phone : String) (gap_start gap_end : Int) (returned : List MsgEvent)
    (now : Int) : DBState :=
  let st1 := ingestAll threshold st returned account_phone now
  let seen := returned.map (fun ev => ev.msg_id)
  let missing := (rangeIds gap_start gap_end).filter (fun i => !seen.contains i)
  { st1 with
    messages := missing.foldl
      (fun t i => mark_message_unrecoverable t chat_id i account_phone "telegram_missing" now)
      st1.messages }

/-! ## Media enqueue (main._enqueue_media_download) -/

/-- State touched by `main._enqueue_media_download`. -/
structure EnqueueState where
  messages : List MessageRow
  queue : List QueueItem
  prefs : List ChatPref
deriving DecidableEq, Repr

/-- The maximum-size skip check shared by enqueue and download paths:
skip iff both a limit and a known size exist and size > max_mb MiB. -/
def sizeExceeds (max_mb : Option Int) (file_size : Option Int) : Bool :=
  match max_mb, file_size with
  | some m, some s => decide (s > m * 1024 * 1024)
  | _, _ => false

/-- `main._enqueue_media_download`: skip when the chat preference disables
downloads or the size limit is exceeded; otherwise deduplicate by
file_unique_id against done queue rows (reusing the existing path on the
message row, enqueuing nothing) or enqueue a fresh pending item.  No branch
of this function transfers any media. -/
def enqueue_media_download (st : EnqueueState) (msg_id chat_id : Int)
    (file_size : Option Int) (file_unique_id : Option String)
    (account_phone : String) (max_mb : Option Int) (media_dir : Option String)
    (nextId : Nat) (now : Int) : EnqueueState :=
  if !prefEnabled st.prefs chat_id account_phone then st
  else if sizeExceeds max_mb file_size then st
  else
    match get_downloaded_path_by_unique_id st.queue file_unique_id with
    | some existing_path =>
      { st with messages := st.messages.map (fun r =>
          if sameIdentity chat_id msg_id account_phone r then
            { r with media_file_path := some existing_path }
          else r) }
    | none =>
      { st with queue := (enqueue_download st.queue msg_id chat_id (toString chat_id)
          media_dir file_size file_unique_id account_phone nextId now) }

/-! ## Per-item download worker (main._process_queue_item) -/

/-- Outcome of `main._download_media_task` for one message, with the platform
transfer abstracted as an oracle (`downloadResult`): the task skips
oversized files without transferring, otherwise it always invokes the
platform download. -/
structure DownloadOutcome where
  path : Option String
  transferInvoked : Bool
deriving DecidableEq, Repr

/-- `main._download_media_task`, media transfer abstracted. -/
def download_media_task (file_size : Option Int) (max_mb : Option Int)
    (downloadResult : Option String) : DownloadOutcome :=
  if sizeExceeds max_mb file_size then { path := none, transferInvoked := false }
  else { path := downloadResult, transferInvoked := true }

/-- Result of `main._process_queue_item` on one queue row. -/
structure WorkerResult where
  table : List QueueItem
  transferInvoked : Bool
deriving DecidableEq, Repr

/-- `main._process_queue_item`: fetch the message (oracle `messageFound`),
run `_download_media_task`, then mark the row done with the returned path or
failed.  The worker consults no other queue rows: in particular it performs
no file_unique_id lookup before downloading. -/
def process_queue_item (table : List QueueItem) (row : QueueItem)
    (messageFound : Bool) (file_size : Option Int) (max_mb : Option Int)
    (downloadResult : Option String) (now : Int) : WorkerResult :=
  if messageFound then
    let d := download_media_task file_size max_mb downloadResult
    match d.path with
    | some p =>
      { table := mark_download_done table row.id p now, transferInvoked := d.transferInvoked }
    | none =>
      { table := mark_download_failed table row.id "Sin ruta devuelta" now
        transferInvoked := d.transferInvoked }
  else
    { table := mark_download_failed table row.id "Mensaje no encontrado para descarga" now
      transferInvoked := false }

/-! ## Download scheduler pass (main.process_download_queue) -/

/-- The in-memory view of one scheduler loop iteration: the queue table, the
preference table, and the sizes of the live task sets. -/
structure SchedState where
  table : List QueueItem
  prefs : List ChatPref
  active : Nat
  activeRecent : Nat
deriving DecidableEq, Repr

/-- Mark every fetched row in_progress, in fetch order. -/
def markAll (table : List QueueItem) (rows : List QueueItem) (now : Int) : List QueueItem :=
  rows.foldl (fun t r => mark_download_in_progress t r.id now) table

/-- One iteration of the inner `while len(tasks) < concurrency` loop of
`main.process_download_queue`: recent-lane fetch and dispatch first, then
FIFO fetch for the remaining slots; `stop` records the `break` exits. -/
structure IterResult where
  state : SchedState
  recentRows : List QueueItem
  fifoRows : List QueueItem
  stop : Bool
deriving DecidableEq, Repr

/-- One inner-loop iteration (c = total concurrency, r = min_recent_slots). -/
def fillIter (c r : Nat) (accF : Option String) (now : Int) (st : SchedState) : IterResult :=
  if st.active ≥ c then { state := st, recentRows := [], fifoRows := [], stop := true }
  else
    let recent_deficit := r - st.activeRecent
    let recent_slots := min recent_deficit (c - st.active)
    let recentRows :=
      if recent_slots > 0 then
        fetch_recent_pending_downloads st.table st.prefs recent_slots accF
      else []
    let st1 : SchedState :=
      { st with table := markAll st.table recentRows now
                active := st.active + recentRows.length
                activeRecent := st.activeRecent + recentRows.length }
    let slots_available := c - st1.active
    if slots_available = 0 then
      { state := st1, recentRows := recentRows, fifoRows := [], stop := true }
    else
      let rows := fetch_pending_downloads st1.table st1.prefs slots_available accF
      if rows.isEmpty then
        { state := st1, recentRows := recentRows, fifoRows := [], stop := true }
      else
        { state :=
            { st1 with
              table := markAll st1.table rows now
              active := st1.active + rows.length }
          recentRows := recentRows
          fifoRows := rows
          stop := false }

/-- The dispatches of one scheduling pass. -/
structure PassResult where
  state : SchedState
  recentDispatched : List QueueItem
  fifoDispatched : List QueueItem
deriving DecidableEq, Repr

/-- The inner loop, fuelled (each non-stopping iteration dispatches at least
one FIFO row, so `c + 1` units of fuel always reach the fixpoint). -/
def fillLoop : Nat → Nat → Nat → Option String → Int → SchedState → PassResult
  | 0, _, _, _, _, st => { state := st, recentDispatched := [], fifoDispatched := [] }
  | fuel + 1, c, r, accF, now, st =>
    let it := fillIter c r accF now st
    if it.stop then
      { state := it.state, recentDispatched := it.recentRows, fifoDispatched := it.fifoRows }
    else
      let rest := fillLoop fuel c r accF now it.state
      { state := rest.state
        recentDispatched := it.recentRows ++ rest.recentDispatched
        fifoDispatched := it.fifoRows ++ rest.fifoDispatched }

/-- One scheduling pass: run the inner fill loop to completion. -/
def process_download_pass (c r : Nat) (accF : Option String) (now : Int)
    (st : SchedState) : PassResult :=
  fillLoop (c + 1) c r accF now st

/-- Count of pending, preference-enabled rows visible to this scheduler. -/
def pendingCount (st : SchedState) (accF : Option String) : Nat :=
  (st.table.filter (pendingEligible st.prefs accF)).length

/-! ## Scheduler operations as a transition system (for the status machine) -/

/-- The status of the queue row with a given id, if present. -/
def statusOf (table : List QueueItem) (row_id : Nat) : Option DStatus :=
  (table.find? (fun r => decide (r.id = row_id))).map (fun r => r.status)

/-- The operations the Download Scheduler itself performs on the queue:
dispatch of a fetched pending row (`mark_download_in_progress`), terminal
marking by the worker of the row it was dispatched with (in_progress at that
point, since nothing else touches a dispatched row), the unconditional
startup reset, and the idempotent enqueue. -/
inductive SchedOp where
  | dispatch (row_id : Nat) (now : Int)
  | completeDone (row_id : Nat) (path : String) (now : Int)
  | completeFailed (row_id : Nat) (error : String) (now : Int)
  | startupReset (accF : Option String) (now : Int)
  | enqueue (msg_id chat_id : Int) (chat_label : String) (media_dir : Option String)
      (file_size : Option Int) (file_unique_id : Option String)
      (account_phone : String) (nextId : Nat) (now : Int)

/-- Guarded small-step semantics of the scheduler operations over the queue
table.  The guards come from the source: rows are dispatched only out of the
pending-only fetch queries, and a worker marks done/failed only the row it
was dispatched with. -/
def schedStep (table : List QueueItem) : SchedOp → Option (List QueueItem)
  | .dispatch row_id now =>
    if statusOf table row_id = some DStatus.pending then
      some (mark_download_in_progress table row_id now)
    else none
  | .completeDone row_id path now =>
    if statusOf table row_id = some DStatus.in_progress then
      some (mark_download_done table row_id path now)
    else none
  | .completeFailed row_id error now =>
    if statusOf table row_id = some DStatus.in_progress then
      some (mark_download_failed table row_id error now)
    else none
  | .startupReset accF now => some (reset_stuck_downloads table none accF now).1
  | .enqueue msg_id chat_id chat_label media_dir file_size file_unique_id account_phone nextId now =>
    some (enqueue_download table msg_id chat_id chat_label media_dir file_size
      file_unique_id account_phone nextId now)

/-- The status edges the spec state machine allows. -/
def allowedEdge (s s' : DStatus) : Prop :=
  s = s'
    ∨ (s = DStatus.pending ∧ s' = DStatus.in_progress)
    ∨ (s = DStatus.in_progress
        ∧ (s' = DStatus.done ∨ s' = DStatus.failed ∨ s' = DStatus.pending))

instance (s s' : DStatus) : Decidable (allowedEdge s s') := by
  unfold allowedEdge; infer_instance

/-! ## Sample data used by concrete scenarios and witnesses -/

/-- A minimal persisted message row of chat 100 / account A with a given id. -/
def sampleRow (m : Int) : MessageRow :=
  { msg_id := m, chat_id := 100, account_phone := "A", sender_id := none, text := none
    media_type := none, media_file_path := none, is_forward := false
    forward_sender_id := none, reply_to_msg_id := none, edit_date := none, views := none
    forwards := none, pin := false, silent := false, is_post := false, ttl_period := none
    topic_id := none, has_log := false, created_at := 0, received_at := 0 }

/-- A minimal inbound message event for chat 100 with a given id. -/
def sampleEvent (m : Int) : MsgEvent :=
  { msg_id := m, chat_id := 100, sender_id := some 7, text := some "hi"
    media_type := none, is_forward := false, forward_sender_id := none
    reply_to_msg_id := none, edit_date := none, views := none, forwards := none
    pin := false, silent := false, is_post := false, ttl_period := none
    topic_id := none, created_at := m }

/-- The empty persistent state. -/
def emptyState : DBState := { messages := [], message_log := [] }

/-- A pending queue item with id i and creation time c (size unknown). -/
def sampleItem (i : Nat) (c : Int) : QueueItem :=
  { id := i, msg_id := c, chat_id := 100, chat_label := "100", media_dir := none
    file_size := none, file_unique_id := none, account_phone := "A"
    status := DStatus.pending, path := none, error := none, attempts := 0
    created_at := c, updated_at := 0 }

/-- Scheduler state with five pending items of distinct created_at and no
active tasks (the concrete lane-invariant scenario). -/
def fivePendingState : SchedState :=
  { table := [sampleItem 1 1, sampleItem 2 2, sampleItem 3 3, sampleItem 4 4, sampleItem 5 5]
    prefs := [], active := 0, activeRecent := 0 }

/-! ## Frame lemmas for the message upsert (claim C1) -/

/-- The dynamic UPDATE of one row keeps every unsupplied field and never
touches identity, sender, creation time or the log flag. -/
theorem applyUpdate_frame (a : UpdateArgs) (now : Int) (r : MessageRow) :
    (a.text = none → (applyUpdate a now r).text = r.text)
    ∧ (a.media_type = none → (applyUpdate a now r).media_type = r.media_type)
    ∧ (a.media_file_path = none → (applyUpdate a now r).media_file_path = r.media_file_path)
    ∧ (a.edit_date = none → (applyUpdate a now r).edit_date = r.edit_date)
    ∧ (a.views = none → (applyUpdate a now r).views = r.views)
    ∧ (a.forwards = none → (applyUpdate a now r).forwards = r.forwards)
    ∧ (a.pin = none → (applyUpdate a now r).pin = r.pin)
    ∧ (a.silent = none → (applyUpdate a now r).silent = r.silent)
    ∧ (a.is_post = none → (applyUpdate a now r).is_post = r.is_post)
    ∧ (a.ttl_period = none → (applyUpdate a now r).ttl_period = r.ttl_period)
    ∧ (a.topic_id = none → (applyUpdate a now r).topic_id = r.topic_id)
    ∧ (applyUpdate a now r).msg_id = r.msg_id
    ∧ (applyUpdate a now r).chat_id = r.chat_id
    ∧ (applyUpdate a now r).account_phone = r.account_phone
    ∧ (applyUpdate a now r).sender_id = r.sender_id
    ∧ (applyUpdate a now r).created_at = r.created_at
    ∧ (applyUpdate a now r).has_log = r.has_log := by
  refine ⟨fun h => ?_, fun h => ?_, fun h => ?_, fun h => ?_, fun h => ?_, fun h => ?_,
    fun h => ?_, fun h => ?_, fun h => ?_, fun h => ?_, fun h => ?_,
    rfl, rfl, rfl, rfl, rfl, rfl⟩ <;> simp [applyUpdate, h]

/-- Row i of the updated table, as a function of row i of the old table. -/
theorem update_message_getElem (table : List MessageRow) (a : UpdateArgs) (now : Int)
    (i : Nat) :
    (update_message table a now)[i]? =
      Option.map (fun r =>
        if updateHasNoFields a = true then r
        else if matchesUpdate a r then applyUpdate a now r else r) table[i]? := by
  unfold update_message
  split
  · next h => simp [h]
  · next h => rw [List.getElem?_map]

/-- Update arguments supplying only some fields (for witnesses). -/
def sampleUpdateArgs : UpdateArgs :=
  { msg_id := 1, chat_id := some 100, text := some "edited", media_type := none
    media_file_path := none, edit_date := some 9, views := none, forwards := none
    pin := none, silent := none, is_post := none, ttl_period := none, topic_id := none }

/-- Insert arguments re-ingesting id 2 of chat 100 / account A (for witnesses). -/
def sampleInsertArgs : InsertArgs := eventInsertArgs (sampleEvent 2) "A"

/-- C1: for every existing Message row and every re-ingestion (upsert) of the
same identity (chat_id, msg_id, account_phone), fields not supplied by the
upsert keep their previous values.  `db.update_message` builds its SET clause
only from the supplied (non-None) keyword arguments, so every unsupplied
field, the identity, sender_id, created_at and has_log are retained on every
row; `db.insert_message` supplies every column, keeps exactly one row per
identity (no growth when the identity exists) and leaves rows of other
identities untouched. -/
theorem c1_upsert_retains_unsupplied_fields (table : List MessageRow) (a : UpdateArgs)
    (b : InsertArgs) (now : Int) (i : Nat) :
    (update_message table a now).length = table.length
    ∧ (table.any (sameIdentity b.chat_id b.msg_id b.account_phone) = true →
        (insert_message table b now).length = table.length)
    ∧ (∀ r, table[i]? = some r →
        sameIdentity b.chat_id b.msg_id b.account_phone r = false →
        (insert_message table b now)[i]? = some r)
    ∧ (a.text = none →
        ((update_message table a now)[i]?).map MessageRow.text = (table[i]?).map MessageRow.text)
    ∧ (a.media_type = none →
        ((update_message table a now)[i]?).map MessageRow.media_type
          = (table[i]?).map MessageRow.media_type)
    ∧ (a.media_file_path = none →
        ((update_message table a now)[i]?).map MessageRow.media_file_path
          = (table[i]?).map MessageRow.media_file_path)
    ∧ (a.edit_date = none →
        ((update_message table a now)[i]?).map MessageRow.edit_date
          = (table[i]?).map MessageRow.edit_date)
    ∧ (a.views = none →
        ((update_message table a now)[i]?).map MessageRow.views
          = (table[i]?).map MessageRow.views)
    ∧ (a.forwards = none →
        ((update_message table a now)[i]?).map MessageRow.forwards
          = (table[i]?).map MessageRow.forwards)
    ∧ (a.pin = none →
        ((update_message table a now)[i]?).map MessageRow.pin = (table[i]?).map MessageRow.pin)
    ∧ (a.silent = none →
        ((update_message table a now)[i]?).map MessageRow.silent
          = (table[i]?).map MessageRow.silent)
    ∧ (a.is_post = none →
        ((update_message table a now)[i]?).map MessageRow.is_post
          = (table[i]?).map MessageRow.is_post)
    ∧ (a.ttl_period = none →
        ((update_message table a now)[i]?).map MessageRow.ttl_period
          = (table[i]?).map MessageRow.ttl_period)
    ∧ (a.topic_id = none →
        ((update_message table a now)[i]?).map MessageRow.topic_id
          = (table[i]?).map MessageRow.topic_id)
    ∧ ((update_message table a now)[i]?).map MessageRow.msg_id
        = (table[i]?).map MessageRow.msg_id
    ∧ ((update_message table a now)[i]?).map MessageRow.chat_id
        = (table[i]?).map MessageRow.chat_id
    ∧ ((update_message table a now)[i]?).map MessageRow.account_phone
        = (table[i]?).map MessageRow.account_phone
    ∧ ((update_message table a now)[i]?).map MessageRow.sender_id
        = (table[i]?).map MessageRow.sender_id
    ∧ ((update_message table a now)[i]?).map MessageRow.created_at
        = (table[i]?).map MessageRow.created_at
    ∧ ((update_message table a now)[i]?).map MessageRow.has_log
        = (table[i]?).map MessageRow.has_log := by
  have hrow := update_message_getElem table a now i
  refine ⟨?_, ?_, ?_, ?_, ?_, ?_, ?_, ?_, ?_, ?_, ?_, ?_, ?_, ?_, ?_, ?_, ?_, ?_, ?_, ?_⟩
  · unfold update_message
    split
    · rfl
    · exact List.length_map _ _
  · intro hex
    unfold insert_message
    rw [if_pos hex]
    exact List.length_map _ _
  · intro r hr hne
    have hi : i < table.length := (List.getElem?_eq_some.mp hr).1
    unfold insert_message
    split
    · rw [List.getElem?_map, hr]
      simp [hne]
    · rw [List.getElem?_append, if_pos hi]
      exact hr
  all_goals try intro h
  all_goals rw [hrow]
  all_goals cases htab : table[i]? with
    | none => rfl
    | some r =>
      simp only [Option.map_some']
      split_ifs <;> simp [applyUpdate, *]

/-- Witness for C1 at a concrete two-row table: an update supplying only some
fields keeps media_type, and a re-ingestion of the identity of row 2 keeps
the table size and leaves row 1 untouched. -/
theorem c1_witness :
    (update_message [sampleRow 1, sampleRow 2] sampleUpdateArgs 5).length = 2
    ∧ ((update_message [sampleRow 1, sampleRow 2] sampleUpdateArgs 5)[0]?).map
        MessageRow.media_type = ([sampleRow 1, sampleRow 2][0]?).map MessageRow.media_type
    ∧ (insert_message [sampleRow 1, sampleRow 2] sampleInsertArgs 5).length = 2
    ∧ (insert_message [sampleRow 1, sampleRow 2] sampleInsertArgs 5)[0]? = some (sampleRow 1) := by
  obtain ⟨hlen, hinslen, hinsframe, _htext, hmt, -⟩ :=
    c1_upsert_retains_unsupplied_fields [sampleRow 1, sampleRow 2]
      sampleUpdateArgs sampleInsertArgs 5 0
  exact ⟨hlen, hmt rfl, hinslen (by decide), hinsframe (sampleRow 1) rfl (by decide)⟩

/-- C4: the reported gap is the new message id minus the maximum persisted
msg_id of the (chat, account) read before the insertion, the asynchronous
catch-up fires exactly when gap > the historic-gap threshold (default 10),
and after ingesting ids 1, 2, 3 of chat 100 / account A, ingesting id 15
reports gap 12 and triggers at threshold 10. -/
theorem c4_gap_and_trigger (threshold : Int) (st : DBState) (ev : MsgEvent)
    (acc : String) (now : Int) :
    (processNewMessage threshold st ev acc now).gap
        = some (ev.msg_id - get_max_message_id_core st.messages ev.chat_id acc)
    ∧ ((processNewMessage threshold st ev acc now).catchUpTriggered = true
        ↔ ev.msg_id - get_max_message_id_core st.messages ev.chat_id acc > threshold)
    ∧ HISTORIC_GAP_THRESHOLD_default = 10
    ∧ (processNewMessage 10 (ingestAll 10 emptyState ([1, 2, 3].map sampleEvent) "A" 0)
        (sampleEvent 15) "A" 0).gap = some 12
    ∧ (processNewMessage 10 (ingestAll 10 emptyState ([1, 2, 3].map sampleEvent) "A" 0)
        (sampleEvent 15) "A" 0).catchUpTriggered = true := by
  refine ⟨rfl, ?_, rfl, by decide, by decide⟩
  simp [processNewMessage, decide_eq_true_iff]

/-- C10: the max-id lookup returns 0 both for an empty (chat, account) and
when the query raises, so the first message ingested in a chat reports a gap
equal to its own id and triggers the backfill exactly when that id exceeds
the threshold. -/
theorem c10_max_id_defaults_to_zero (e : String) (chat : Int) (threshold : Int)
    (st : DBState) (ev : MsgEvent) (acc : String) (now : Int)
    (h : msgIdsFor st.messages ev.chat_id acc = []) :
    get_max_message_id_in_chat (Except.error e) chat acc = 0
    ∧ get_max_message_id_core st.messages ev.chat_id acc = 0
    ∧ (processNewMessage threshold st ev acc now).gap = some ev.msg_id
    ∧ ((processNewMessage threshold st ev acc now).catchUpTriggered = true
        ↔ ev.msg_id > threshold) := by
  have hcore : get_max_message_id_core st.messages ev.chat_id acc = 0 := by
    unfold get_max_message_id_core
    rw [h]
    rfl
  refine ⟨rfl, hcore, ?_, ?_⟩
  · simp [processNewMessage, hcore]
  · simp [processNewMessage, hcore, decide_eq_true_iff]

/-- Witness for C10: empty store, first event id 15, threshold 10. -/
theorem c10_witness :
    msgIdsFor emptyState.messages 100 "A" = []
    ∧ get_max_message_id_in_chat (Except.error "db down") 100 "A" = 0
    ∧ (processNewMessage 10 emptyState (sampleEvent 15) "A" 0).gap = some 15
    ∧ (processNewMessage 10 emptyState (sampleEvent 15) "A" 0).catchUpTriggered = true := by
  have h := c10_max_id_defaults_to_zero "db down" 100 10 emptyState (sampleEvent 15) "A" 0 rfl
  exact ⟨rfl, h.1, h.2.2.1, (h.2.2.2).mpr (by decide)⟩

/-! ## Identity counting (claim C2) -/

/-- Number of rows carrying a given composite identity. -/
def identCount (table : List MessageRow) (chat_id msg_id : Int)
    (account_phone : String) : Nat :=
  table.countP (sameIdentity chat_id msg_id account_phone)

/-- The conflict update keeps the composite identity of the row. -/
theorem sameIdentity_applyConflictUpdate (c m : Int) (a : String) (b : InsertArgs)
    (now : Int) (r : MessageRow) :
    sameIdentity c m a (applyConflictUpdate b now r) = sameIdentity c m a r := rfl

/-- The upsert keeps the row count of its own identity when it exists, and
adds exactly one row otherwise. -/
theorem identCount_insert_message (table : List MessageRow) (b : InsertArgs) (now : Int) :
    identCount (insert_message table b now) b.chat_id b.msg_id b.account_phone =
      if table.any (sameIdentity b.chat_id b.msg_id b.account_phone) then
        identCount table b.chat_id b.msg_id b.account_phone
      else identCount table b.chat_id b.msg_id b.account_phone + 1 := by
  unfold insert_message identCount
  split
  · rw [List.countP_map]
    refine List.countP_congr (fun r _ => ?_)
    by_cases hr : sameIdentity b.chat_id b.msg_id b.account_phone r = true <;>
      simp [Function.comp, hr, sameIdentity_applyConflictUpdate]
  · rw [List.countP_append]
    simp [sameIdentity, rowOfInsertArgs]

/-- Appending a log row never touches identity counts in the messages table
(the has_log flag update keeps every identity). -/
theorem identCount_insert_message_log (st : DBState) (e : LogRow) (c m : Int)
    (a : String) :
    identCount (insert_message_log st e).messages c m a = identCount st.messages c m a := by
  unfold insert_message_log
  split
  · rfl
  · unfold identCount
    simp only
    rw [List.countP_map]
    refine List.countP_congr (fun r _ => ?_)
    simp only [Function.comp_apply]
    by_cases hr : sameIdentity e.chat_id e.telegram_msg_id e.account_phone r = true
    · rw [if_pos hr]
      exact Iff.rfl
    · rw [if_neg hr]

/-- After `db.insert_message_log`, the log identity of the inserted row is
always present. -/
theorem logIdentityExists_after (st : DBState) (e : LogRow) :
    logIdentityExists (insert_message_log st e).message_log e.telegram_msg_id
      e.chat_id e.account_phone e.created_at = true := by
  unfold insert_message_log
  split
  · next h => exact h
  · simp [logIdentityExists, List.any_append]

/-- C2: submitting the same new-message event twice yields exactly one
Message row of that identity, and the second identical submission appends no
second MessageLogEntry (the log identity fixed by the spec is already
present after the first submission). -/
theorem c2_double_submit_idempotent (threshold : Int) (st : DBState) (ev : MsgEvent)
    (acc : String) (now : Int)
    (hn : identCount st.messages ev.chat_id ev.msg_id acc ≤ 1) :
    identCount (processNewMessage threshold st ev acc now).state.messages
        ev.chat_id ev.msg_id acc = 1
    ∧ identCount (processNewMessage threshold
        (processNewMessage threshold st ev acc now).state ev acc now).state.messages
        ev.chat_id ev.msg_id acc = 1
    ∧ (processNewMessage threshold
        (processNewMessage threshold st ev acc now).state ev acc now).state.message_log
      = (processNewMessage threshold st ev acc now).state.message_log := by
  have hcount : ∀ s : DBState, identCount s.messages ev.chat_id ev.msg_id acc ≤ 1 →
      identCount (processNewMessage threshold s ev acc now).state.messages
        ev.chat_id ev.msg_id acc = 1 := by
    intro s hs
    show identCount (insert_message_log _ _).messages _ _ _ = 1
    rw [identCount_insert_message_log]
    have hins := identCount_insert_message s.messages (eventInsertArgs ev acc) now
    simp only [eventInsertArgs] at hins ⊢
    by_cases hany : s.messages.any (sameIdentity ev.chat_id ev.msg_id acc) = true
    · rw [if_pos hany] at hins
      have hpos : 0 < identCount s.messages ev.chat_id ev.msg_id acc := by
        rw [identCount, List.countP_pos_iff]
        exact List.any_eq_true.mp hany
      exact hins.trans (le_antisymm hs hpos)
    · rw [if_neg hany] at hins
      have hzero : identCount s.messages ev.chat_id ev.msg_id acc = 0 := by
        rw [identCount, List.countP_eq_zero]
        exact fun r hr hp => hany (List.any_eq_true.mpr ⟨r, hr, hp⟩)
      rw [hins, hzero]
  have h1 := hcount st hn
  have h2 := hcount (processNewMessage threshold st ev acc now).state (le_of_eq h1)
  refine ⟨h1, h2, ?_⟩
  have hlog : logIdentityExists
      (processNewMessage threshold st ev acc now).state.message_log
      ev.msg_id ev.chat_id acc ev.created_at = true :=
    logIdentityExists_after { messages := _, message_log := st.message_log }
      (eventLogRow ev acc)
  show (insert_message_log _ _).message_log = _
  unfold insert_message_log
  simp only [eventLogRow]
  rw [if_pos hlog]

/-- Witness for C2: the same event submitted twice into the empty store. -/
theorem c2_witness :
    identCount emptyState.messages 100 5 "A" ≤ 1
    ∧ identCount (processNewMessage 10 emptyState (sampleEvent 5) "A" 0).state.messages
        100 5 "A" = 1
    ∧ identCount (processNewMessage 10
        (processNewMessage 10 emptyState (sampleEvent 5) "A" 0).state
        (sampleEvent 5) "A" 0).state.messages 100 5 "A" = 1
    ∧ (processNewMessage 10 (processNewMessage 10 emptyState (sampleEvent 5) "A" 0).state
        (sampleEvent 5) "A" 0).state.message_log
      = (processNewMessage 10 emptyState (sampleEvent 5) "A" 0).state.message_log := by
  have h := c2_double_submit_idempotent 10 emptyState (sampleEvent 5) "A" 0 (by decide)
  exact ⟨by decide, h.1, h.2.1, h.2.2⟩

/-! ## Gap query characterization (claims C3 and C7) -/

/-- A row is reported by the adjacent-id comparison exactly for a consecutive
pair (p, n) of the id list with n - p > 1. -/
theorem mem_gapsOfIds (l : List Int) (g : GapRow) :
    g ∈ gapsOfIds l ↔ ∃ i p n, l[i]? = some p ∧ l[i + 1]? = some n ∧ n - p > 1
      ∧ g = ⟨p + 1, n - 1, n - p - 1⟩ := by
  induction l with
  | nil => simp [gapsOfIds]
  | cons x xs ih =>
    cases xs with
    | nil => simp [gapsOfIds]
    | cons y ys =>
      rw [show gapsOfIds (x :: y :: ys)
          = (if y - x > 1 then [⟨x + 1, y - 1, y - x - 1⟩] else []) ++ gapsOfIds (y :: ys)
        from rfl]
      constructor
      · intro hmem
        rcases List.mem_append.mp hmem with hL | hR
        · by_cases hgt : y - x > 1
          · rw [if_pos hgt] at hL
            simp only [List.mem_singleton] at hL
            exact ⟨0, x, y, by simp, by simp, hgt, hL⟩
          · rw [if_neg hgt] at hL
            simp at hL
        · obtain ⟨i, p, n, h1, h2, h3, h4⟩ := ih.mp hR
          exact ⟨i + 1, p, n, by simpa using h1, by simpa using h2, h3, h4⟩
      · rintro ⟨i, p, n, h1, h2, h3, h4⟩
        cases i with
        | zero =>
          simp only [List.getElem?_cons_zero, Option.some_inj] at h1
          simp only [List.getElem?_cons_succ, List.getElem?_cons_zero, Option.some_inj] at h2
          subst h1
          subst h2
          refine List.mem_append.mpr (Or.inl ?_)
          rw [if_pos h3]
          simp [h4]
        | succ j =>
          refine List.mem_append.mpr (Or.inr ?_)
          exact ih.mpr ⟨j, p, n, by simpa using h1, by simpa using h2, h3, h4⟩

/-- A sorted duplicate-free id list is strictly increasing. -/
theorem pairwise_lt_insertionSort (l : List Int) (hn : l.Nodup) :
    List.Pairwise (· < ·) (l.insertionSort (· ≤ ·)) := by
  have hs : List.Sorted (· ≤ ·) (l.insertionSort (· ≤ ·)) :=
    List.sorted_insertionSort _ l
  have hnd : (l.insertionSort (· ≤ ·)).Nodup :=
    (List.perm_insertionSort _ l).nodup_iff.mpr hn
  exact (hs.and hnd).imp (fun h => lt_of_le_of_ne h.1 h.2)

/-- Every id inside a reported gap range is absent from the strictly
increasing id list the gaps were computed from. -/
theorem not_mem_of_mem_gapsOfIds (l : List Int) (hs : List.Pairwise (· < ·) l)
    (g : GapRow) (hg : g ∈ gapsOfIds l) (k : Int)
    (h1 : g.gap_start ≤ k) (h2 : k ≤ g.gap_end) : k ∉ l := by
  obtain ⟨i, p, n, hp, hn', hgt, hgeq⟩ := (mem_gapsOfIds l g).mp hg
  subst hgeq
  have h1' : p + 1 ≤ k := h1
  have h2' : k ≤ n - 1 := h2
  intro hk
  obtain ⟨j, hj, hjk⟩ := List.mem_iff_getElem.mp hk
  obtain ⟨hip, hpi⟩ := List.getElem?_eq_some.mp hp
  obtain ⟨hin, hni⟩ := List.getElem?_eq_some.mp hn'
  have hpair := List.pairwise_iff_getElem.mp hs
  rcases lt_trichotomy j i with hji | hji | hji
  · have hlt : l[j] < l[i] := hpair j i hj hip hji
    rw [hjk, hpi] at hlt
    omega
  · subst hji
    rw [hjk] at hpi
    omega
  · rcases eq_or_lt_of_le (Nat.succ_le_of_lt hji) with hj1 | hj1
    · have hjk' : l[j]? = some k := List.getElem?_eq_some.mpr ⟨hj, hjk⟩
      rw [← hj1, hn'] at hjk'
      simp only [Option.some_inj] at hjk'
      omega
    · have hlt : l[i + 1] < l[j] := hpair (i + 1) j hin hj hj1
      rw [hjk, hni] at hlt
      omega

/-- C3: over any set of persisted message ids of a (chat, account), the gap
query reports a range exactly between each adjacent pair p < n of the
ordered ids with n - p > 1, as [p+1, n-1] of size n-p-1, sorted by size
descending; for persisted ids {1,2,5,6,9} it reports exactly (3,4,size 2)
then (7,8,size 2). -/
theorem c3_gap_query_correct (table : List MessageRow) (chat_id : Int)
    (account_phone : String) (limit : Nat)
    (hlim : (gapsOfIds ((msgIdsFor table chat_id account_phone).insertionSort
      (· ≤ ·))).length ≤ limit) :
    (∀ g : GapRow, g ∈ get_chat_gaps table chat_id account_phone limit ↔
      ∃ i p n, ((msgIdsFor table chat_id account_phone).insertionSort (· ≤ ·))[i]? = some p
        ∧ ((msgIdsFor table chat_id account_phone).insertionSort (· ≤ ·))[i + 1]? = some n
        ∧ n - p > 1 ∧ g = ⟨p + 1, n - 1, n - p - 1⟩)
    ∧ List.Pairwise gapSizeDesc (get_chat_gaps table chat_id account_phone limit)
    ∧ get_chat_gaps ([1, 2, 5, 6, 9].map sampleRow) 100 "A" 1000
        = [⟨3, 4, 2⟩, ⟨7, 8, 2⟩] := by
  refine ⟨?_, ?_, by decide⟩
  · intro g
    unfold get_chat_gaps
    rw [List.take_of_length_le (by rw [List.length_insertionSort]; exact hlim)]
    rw [List.mem_insertionSort]
    exact mem_gapsOfIds _ g
  · unfold get_chat_gaps
    exact List.Pairwise.sublist (List.take_sublist _ _)
      (List.sorted_insertionSort gapSizeDesc _)

/-- Witness for C3 at the spec scenario {1,2,5,6,9}: the characterization
produces the (7,8) range from the adjacent pair (6, 9), and the full result
is [(3,4,2), (7,8,2)]. -/
theorem c3_witness :
    (gapsOfIds ((msgIdsFor ([1, 2, 5, 6, 9].map sampleRow) 100 "A").insertionSort
      (· ≤ ·))).length ≤ 1000
    ∧ (⟨7, 8, 2⟩ : GapRow) ∈ get_chat_gaps ([1, 2, 5, 6, 9].map sampleRow) 100 "A" 1000
    ∧ get_chat_gaps ([1, 2, 5, 6, 9].map sampleRow) 100 "A" 1000
        = [⟨3, 4, 2⟩, ⟨7, 8, 2⟩] := by
  have h := c3_gap_query_correct ([1, 2, 5, 6, 9].map sampleRow) 100 "A" 1000 (by decide)
  refine ⟨by decide, ?_, h.2.2⟩
  exact (h.1 ⟨7, 8, 2⟩).mpr ⟨3, 6, 9, by decide, by decide, by decide, rfl⟩

/-! ## Crash recovery (claim C8) -/

/-- An in_progress item left from a prior crash (for witnesses). -/
def sampleStuckItem : QueueItem :=
  { sampleItem 1 1 with status := DStatus.in_progress, attempts := 1 }

/-- A finished item (for witnesses). -/
def sampleDoneItem : QueueItem :=
  { sampleItem 2 2 with status := DStatus.done, path := some "/out/f.jpg" }

/-- C8: the startup sweep (reset_stuck_downloads with no maximum age) turns
every in_progress row inside its account scope into pending, touching only
its updated_at; every row of any other status (and any other account) is
returned unchanged; and a reset row satisfies the shared filter of the
pending-download queries and is returned by them, so it is eligible for
redispatch. -/
theorem c8_startup_reset_rehydrates (table : List QueueItem) (accF : Option String)
    (now : Int) (i : Nat) (prefs : List ChatPref) :
    (reset_stuck_downloads table none accF now).1.length = table.length
    ∧ (∀ r, table[i]? = some r → r.status = DStatus.in_progress →
        accMatch accF r = true →
        (reset_stuck_downloads table none accF now).1[i]?
          = some { r with status := DStatus.pending, updated_at := now })
    ∧ (∀ r, table[i]? = some r →
        ¬(r.status = DStatus.in_progress ∧ accMatch accF r = true) →
        (reset_stuck_downloads table none accF now).1[i]? = some r)
    ∧ (∀ r, r ∈ (reset_stuck_downloads table none accF now).1 →
        r.status = DStatus.pending →
        prefEnabled prefs r.chat_id r.account_phone = true →
        accMatch accF r = true →
        r ∈ fetch_pending_downloads (reset_stuck_downloads table none accF now).1 prefs
            ((reset_stuck_downloads table none accF now).1.length) accF) := by
  refine ⟨List.length_map _ _, ?_, ?_, ?_⟩
  · intro r hr hst hacc
    show (table.map _)[i]? = _
    rw [List.getElem?_map, hr]
    simp only [Option.map_some', Option.some_inj]
    rw [if_pos (by simp [stuckCondition, hst, hacc])]
  · intro r hr hne
    show (table.map _)[i]? = _
    rw [List.getElem?_map, hr]
    simp only [Option.map_some', Option.some_inj]
    rw [if_neg ?_]
    simp only [stuckCondition, Bool.and_true]
    intro hcond
    rcases Bool.and_eq_true_iff.mp hcond with ⟨h1, h2⟩
    exact hne ⟨by simpa using h1, h2⟩
  · intro r hrm hst hpref hacc
    unfold fetch_pending_downloads
    rw [List.take_of_length_le ?hlen]
    case hlen =>
      rw [List.length_insertionSort]
      exact List.length_filter_le _ _
    rw [List.mem_insertionSort, List.mem_filter]
    exact ⟨hrm, by simp [pendingEligible, hst, hpref, hacc]⟩

/-- Witness for C8: a stuck in_progress item and a done item; after the
startup sweep the first is pending and redispatchable, the second untouched. -/
theorem c8_witness :
    (reset_stuck_downloads [sampleStuckItem, sampleDoneItem] none none 9).1.length = 2
    ∧ (reset_stuck_downloads [sampleStuckItem, sampleDoneItem] none none 9).1[0]?
        = some { sampleStuckItem with status := DStatus.pending, updated_at := 9 }
    ∧ (reset_stuck_downloads [sampleStuckItem, sampleDoneItem] none none 9).1[1]?
        = some sampleDoneItem
    ∧ { sampleStuckItem with status := DStatus.pending, updated_at := 9 }
        ∈ fetch_pending_downloads
            (reset_stuck_downloads [sampleStuckItem, sampleDoneItem] none none 9).1 []
            ((reset_stuck_downloads [sampleStuckItem, sampleDoneItem] none none 9).1.length)
            none := by
  obtain ⟨hlen, hin, -, helig⟩ :=
    c8_startup_reset_rehydrates [sampleStuckItem, sampleDoneItem] none 9 0 []
  obtain ⟨-, -, hother, -⟩ :=
    c8_startup_reset_rehydrates [sampleStuckItem, sampleDoneItem] none 9 1 []
  refine ⟨hlen, hin sampleStuckItem rfl rfl rfl, hother sampleDoneItem rfl (by decide), ?_⟩
  exact helig _ (by decide) rfl rfl rfl

/-! ## Status transition machine (claim C9) -/

/-- Unpack a statusOf guard into the unique matching row. -/
theorem statusOf_eq_some (table : List QueueItem) (row_id : Nat) (s : DStatus)
    (h : statusOf table row_id = some s) :
    ∃ r0, r0 ∈ table ∧ r0.id = row_id ∧ r0.status = s := by
  unfold statusOf at h
  cases hf : table.find? (fun r => decide (r.id = row_id)) with
  | none => rw [hf] at h; exact absurd h (by simp)
  | some r0 =>
    rw [hf] at h
    simp only [Option.map_some', Option.some_inj] at h
    refine ⟨r0, List.mem_of_find?_eq_some hf, ?_, h⟩
    simpa using List.find?_some hf

/-- With duplicate-free queue ids, equal ids force equal rows. -/
theorem row_eq_of_same_id (table : List QueueItem)
    (hn : (table.map (fun r => r.id)).Nodup) (r1 r2 : QueueItem)
    (h1 : r1 ∈ table) (h2 : r2 ∈ table) (h : r1.id = r2.id) : r1 = r2 :=
  List.inj_on_of_nodup_map hn h1 h2 h

/-- C9: across every scheduler operation (with duplicate-free queue ids), a
row status only moves along pending → in_progress, in_progress → done,
in_progress → failed, or in_progress → pending (recovery); rows never leave
done, and a failed row is never moved by a scheduler operation. -/
theorem c9_status_transitions (table : List QueueItem) (op : SchedOp)
    (table' : List QueueItem) (hn : (table.map (fun r => r.id)).Nodup)
    (hstep : schedStep table op = some table') (i : Nat) :
    table.length ≤ table'.length
    ∧ (∀ r r', table[i]? = some r → table'[i]? = some r' →
        allowedEdge r.status r'.status
        ∧ (r.status = DStatus.done → r' = r)
        ∧ (r.status = DStatus.failed → r' = r)) := by
  cases op with
  | dispatch row_id now =>
    rw [schedStep] at hstep
    split at hstep
    case isFalse => exact absurd hstep (by simp)
    case isTrue hguard =>
      obtain ⟨r0, hr0mem, hr0id, hr0st⟩ := statusOf_eq_some table row_id _ hguard
      simp only [Option.some_inj] at hstep
      subst hstep
      refine ⟨le_of_eq (List.length_map _ _).symm, ?_⟩
      intro r r' hr hr'
      unfold mark_download_in_progress at hr'
      rw [List.getElem?_map, hr] at hr'
      simp only [Option.map_some', Option.some_inj] at hr'
      subst hr'
      have hrmem : r ∈ table := by
        obtain ⟨hlt, heq⟩ := List.getElem?_eq_some.mp hr
        exact heq ▸ List.getElem_mem hlt
      by_cases hid : r.id = row_id
      · have hrr0 : r = r0 := row_eq_of_same_id table hn r r0 hrmem hr0mem (hid.trans hr0id.symm)
        have hpend : r.status = DStatus.pending := hrr0 ▸ hr0st
        rw [if_pos hid]
        refine ⟨Or.inr (Or.inl ⟨hpend, rfl⟩), ?_, ?_⟩
        · intro hd; rw [hpend] at hd; exact absurd hd (by simp)
        · intro hd; rw [hpend] at hd; exact absurd hd (by simp)
      · rw [if_neg hid]
        exact ⟨Or.inl rfl, fun _ => rfl, fun _ => rfl⟩
  | completeDone row_id path now =>
    rw [schedStep] at hstep
    split at hstep
    case isFalse => exact absurd hstep (by simp)
    case isTrue hguard =>
      obtain ⟨r0, hr0mem, hr0id, hr0st⟩ := statusOf_eq_some table row_id _ hguard
      simp only [Option.some_inj] at hstep
      subst hstep
      refine ⟨le_of_eq (List.length_map _ _).symm, ?_⟩
      intro r r' hr hr'
      unfold mark_download_done at hr'
      rw [List.getElem?_map, hr] at hr'
      simp only [Option.map_some', Option.some_inj] at hr'
      subst hr'
      have hrmem : r ∈ table := by
        obtain ⟨hlt, heq⟩ := List.getElem?_eq_some.mp hr
        exact heq ▸ List.getElem_mem hlt
      by_cases hid : r.id = row_id
      · have hrr0 : r = r0 := row_eq_of_same_id table hn r r0 hrmem hr0mem (hid.trans hr0id.symm)
        have hprog : r.status = DStatus.in_progress := hrr0 ▸ hr0st
        rw [if_pos hid]
        refine ⟨Or.inr (Or.inr ⟨hprog, Or.inl rfl⟩), ?_, ?_⟩
        · intro hd; rw [hprog] at hd; exact absurd hd (by simp)
        · intro hd; rw [hprog] at hd; exact absurd hd (by simp)
      · rw [if_neg hid]
        exact ⟨Or.inl rfl, fun _ => rfl, fun _ => rfl⟩
  | completeFailed row_id error now =>
    rw [schedStep] at hstep
    split at hstep
    case isFalse => exact absurd hstep (by simp)
    case isTrue hguard =>
      obtain ⟨r0, hr0mem, hr0id, hr0st⟩ := statusOf_eq_some table row_id _ hguard
      simp only [Option.some_inj] at hstep
      subst hstep
      refine ⟨le_of_eq (List.length_map _ _).symm, ?_⟩
      intro r r' hr hr'
      unfold mark_download_failed at hr'
      rw [List.getElem?_map, hr] at hr'
      simp only [Option.map_some', Option.some_inj] at hr'
      subst hr'
      have hrmem : r ∈ table := by
        obtain ⟨hlt, heq⟩ := List.getElem?_eq_some.mp hr
        exact heq ▸ List.getElem_mem hlt
      by_cases hid : r.id = row_id
      · have hrr0 : r = r0 := row_eq_of_same_id table hn r r0 hrmem hr0mem (hid.trans hr0id.symm)
        have hprog : r.status = DStatus.in_progress := hrr0 ▸ hr0st
        rw [if_pos hid]
        refine ⟨Or.inr (Or.inr ⟨hprog, Or.inr (Or.inl rfl)⟩), ?_, ?_⟩
        · intro hd; rw [hprog] at hd; exact absurd hd (by simp)
        · intro hd; rw [hprog] at hd; exact absurd hd (by simp)
      · rw [if_neg hid]
        exact ⟨Or.inl rfl, fun _ => rfl, fun _ => rfl⟩
  | startupReset accF now =>
    rw [schedStep] at hstep
    simp only [Option.some_inj] at hstep
    subst hstep
    have hred : (reset_stuck_downloads table none accF now).1
        = table.map (fun r => if stuckCondition accF none now r then
            { r with status := DStatus.pending, updated_at := now } else r) := rfl
    rw [hred]
    refine ⟨le_of_eq (List.length_map _ _).symm, ?_⟩
    intro r r' hr hr'
    rw [List.getElem?_map, hr] at hr'
    simp only [Option.map_some', Option.some_inj] at hr'
    subst hr'
    by_cases hc : stuckCondition accF none now r = true
    · have hprog : r.status = DStatus.in_progress := by
        have h2 := hc
        simp only [stuckCondition, Bool.and_eq_true, decide_eq_true_eq] at h2
        exact h2.1.1
      rw [if_pos hc]
      refine ⟨Or.inr (Or.inr ⟨hprog, Or.inr (Or.inr rfl)⟩), ?_, ?_⟩
      · intro hd; rw [hprog] at hd; exact absurd hd (by simp)
      · intro hd; rw [hprog] at hd; exact absurd hd (by simp)
    · rw [if_neg hc]
      exact ⟨Or.inl rfl, fun _ => rfl, fun _ => rfl⟩
  | enqueue msg_id chat_id chat_label media_dir file_size file_unique_id ap nid now =>
    rw [schedStep] at hstep
    simp only [Option.some_inj] at hstep
    subst hstep
    unfold enqueue_download
    split
    · exact ⟨le_refl _, fun r r' hr hr' => by
        rw [hr] at hr'
        simp only [Option.some_inj] at hr'
        subst hr'
        exact ⟨Or.inl rfl, fun _ => rfl, fun _ => rfl⟩⟩
    · refine ⟨by simp, ?_⟩
      intro r r' hr hr'
      have hlt : i < table.length := (List.getElem?_eq_some.mp hr).1
      rw [List.getElem?_append, if_pos hlt, hr] at hr'
      simp only [Option.some_inj] at hr'
      subst hr'
      exact ⟨Or.inl rfl, fun _ => rfl, fun _ => rfl⟩

/-- Witness for C9: dispatching the single pending item moves it along the
pending to in_progress edge. -/
theorem c9_witness :
    (([sampleItem 1 1].map (fun q => q.id)).Nodup)
    ∧ schedStep [sampleItem 1 1] (SchedOp.dispatch 1 9)
        = some (mark_download_in_progress [sampleItem 1 1] 1 9)
    ∧ allowedEdge (sampleItem 1 1).status
        ({ sampleItem 1 1 with status := DStatus.in_progress, attempts := 1, updated_at := 9 } : QueueItem).status := by
  have h := c9_status_transitions [sampleItem 1 1] (SchedOp.dispatch 1 9)
    (mark_download_in_progress [sampleItem 1 1] 1 9) (by decide) (by decide) 0
  refine ⟨by decide, by decide, ?_⟩
  exact (h.2 (sampleItem 1 1)
    { sampleItem 1 1 with status := DStatus.in_progress, attempts := 1, updated_at := 9 }
    rfl (by decide)).1

/-! ## Scheduler pass counting (claim C5) -/

/-- The FIFO fetch returns min(limit, pending count) rows. -/
theorem length_fetch_pending (table : List QueueItem) (prefs : List ChatPref)
    (limit : Nat) (accF : Option String) :
    (fetch_pending_downloads table prefs limit accF).length
      = min limit (table.filter (pendingEligible prefs accF)).length := by
  unfold fetch_pending_downloads
  rw [List.length_take, List.length_insertionSort]

/-- The recent fetch returns min(limit, pending count) rows. -/
theorem length_fetch_recent (table : List QueueItem) (prefs : List ChatPref)
    (limit : Nat) (accF : Option String) :
    (fetch_recent_pending_downloads table prefs limit accF).length
      = min limit (table.filter (pendingEligible prefs accF)).length := by
  unfold fetch_recent_pending_downloads
  rw [List.length_take, List.length_insertionSort]

/-- One inner-loop iteration never pushes the active count above the
concurrency bound. -/
theorem fillIter_active_le (c r : Nat) (accF : Option String) (now : Int)
    (st : SchedState) (h : st.active ≤ c) :
    (fillIter c r accF now st).state.active ≤ c := by
  unfold fillIter
  split
  · exact h
  · dsimp only
    split_ifs <;>
      simp only [length_fetch_recent, length_fetch_pending, List.length_nil] <;>
      omega

/-- The whole fill loop keeps the active count within the concurrency bound. -/
theorem fillLoop_active_le (fuel c r : Nat) (accF : Option String) (now : Int)
    (st : SchedState) (h : st.active ≤ c) :
    (fillLoop fuel c r accF now st).state.active ≤ c := by
  induction fuel generalizing st with
  | zero => exact h
  | succ n ih =>
    rw [fillLoop]
    dsimp only
    split
    · exact fillIter_active_le c r accF now st h
    · exact ih _ (fillIter_active_le c r accF now st h)

/-- The recent-lane rows fetched by one iteration number exactly
min(recent deficit, free slots, pending count). -/
theorem fillIter_recent_length (c r : Nat) (accF : Option String) (now : Int)
    (st : SchedState) (h : ¬ st.active ≥ c) :
    (fillIter c r accF now st).recentRows.length
      = min (min (r - st.activeRecent) (c - st.active)) (pendingCount st accF) := by
  unfold fillIter
  rw [if_neg h]
  dsimp only
  split_ifs <;>
    simp only [length_fetch_recent, length_fetch_pending, List.length_nil, pendingCount] <;>
    omega

/-- The recent lane of one scheduling pass dispatches at least
min(recent deficit, free slots, pending count) items. -/
theorem pass_recent_lower_bound (c r : Nat) (accF : Option String) (now : Int)
    (st : SchedState) :
    min (r - st.activeRecent) (min (c - st.active) (pendingCount st accF))
      ≤ (process_download_pass c r accF now st).recentDispatched.length := by
  unfold process_download_pass
  rw [fillLoop]
  by_cases hge : st.active ≥ c
  · have hca : c - st.active = 0 := Nat.sub_eq_zero_of_le hge
    rw [hca]
    simp
  · have hrl := fillIter_recent_length c r accF now st hge
    dsimp only
    split
    · rw [hrl]
      omega
    · rw [List.length_append]
      rw [hrl] at *
      omega

/-- Scheduler state with one recent-lane task already active and three
pending items (C5 counterexample input). -/
def laneCounterState : SchedState :=
  { table := [sampleItem 1 1, sampleItem 2 2, sampleItem 3 3], prefs := []
    active := 1, activeRecent := 1 }

/-- C5 counterexample: with R = 3, C = 4, one active recent-lane task and
three pending-recent items, a scheduling pass dispatches only 2 recent-lane
items, strictly fewer than min(R, pending count) = 3 — the pass reserves
only the recent-lane deficit net of already-running recent tasks. -/
theorem c5_counterexample :
    pendingCount laneCounterState none = 3
    ∧ (process_download_pass 4 3 none 7 laneCounterState).recentDispatched.length = 2
    ∧ ¬(min 3 (pendingCount laneCounterState none)
        ≤ (process_download_pass 4 3 none 7 laneCounterState).recentDispatched.length) := by
  exact ⟨by decide, by decide, by decide⟩

/-- C5 (amended): across any scheduling pass, at least
min(R − active recent tasks, C − active tasks, pending-recent count) of the
dispatched slots come from the recent lane before FIFO fills the remainder
(when no tasks are active and R le C this floor is min(R, pending count));
active tasks never exceed C; and with 5 pending items of distinct
created_at, R = 3 and C = 4, a single pass dispatches the 3 newest through
the recent lane and the oldest remaining one through FIFO. -/
theorem c5_amended_recent_lane (c r : Nat) (accF : Option String) (now : Int)
    (st : SchedState) (h : st.active ≤ c) :
    min (r - st.activeRecent) (min (c - st.active) (pendingCount st accF))
      ≤ (process_download_pass c r accF now st).recentDispatched.length
    ∧ (process_download_pass c r accF now st).state.active ≤ c
    ∧ (process_download_pass 4 3 none 7 fivePendingState).recentDispatched.map
        (fun q => q.id) = [5, 4, 3]
    ∧ (process_download_pass 4 3 none 7 fivePendingState).fifoDispatched.map
        (fun q => q.id) = [1]
    ∧ (process_download_pass 4 3 none 7 fivePendingState).state.active = 4 := by
  exact ⟨pass_recent_lower_bound c r accF now st,
    fillLoop_active_le (c + 1) c r accF now st h, by decide, by decide, by decide⟩

/-- Witness for C5 (amended) at the five-pending scenario: the floor
min(3 − 0, 4 − 0, 5) = 3 is met by the three dispatched recent items. -/
theorem c5_witness :
    fivePendingState.active ≤ 4
    ∧ min (3 - fivePendingState.activeRecent)
        (min (4 - fivePendingState.active) (pendingCount fivePendingState none))
      ≤ (process_download_pass 4 3 none 7 fivePendingState).recentDispatched.length
    ∧ (process_download_pass 4 3 none 7 fivePendingState).state.active ≤ 4
    ∧ (process_download_pass 4 3 none 7 fivePendingState).recentDispatched.map
        (fun q => q.id) = [5, 4, 3] := by
  have h := c5_amended_recent_lane 4 3 none 7 fivePendingState (by decide)
  exact ⟨by decide, h.1, h.2.1, h.2.2.1⟩

/-! ## Download deduplication (claim C6) -/

/-- A done queue item holding path P for content identity x (for C6). -/
def dupDoneItem : QueueItem :=
  { sampleItem 1 1 with status := DStatus.done, path := some "P", file_unique_id := some "x" }

/-- A pending queue item with the same content identity x (for C6). -/
def dupPendingItem : QueueItem :=
  { sampleItem 2 2 with file_unique_id := some "x" }

/-- C6 counterexample: the per-item worker performs no file_unique_id lookup.
Processing the second item of content identity x, whose first copy is done
with path P, still invokes the platform transfer and records the fresh
download path Q, not P. -/
theorem c6_counterexample :
    (process_queue_item [dupDoneItem, dupPendingItem] dupPendingItem true none none
        (some "Q") 9).transferInvoked = true
    ∧ ((process_queue_item [dupDoneItem, dupPendingItem] dupPendingItem true none none
        (some "Q") 9).table.find? (fun q => decide (q.id = 2))).bind (fun q => q.path)
        = some "Q"
    ∧ ¬((process_queue_item [dupDoneItem, dupPendingItem] dupPendingItem true none none
          (some "Q") 9).transferInvoked = false
        ∧ ((process_queue_item [dupDoneItem, dupPendingItem] dupPendingItem true none none
            (some "Q") 9).table.find? (fun q => decide (q.id = 2))).bind (fun q => q.path)
          = some "P") := by
  exact ⟨by decide, by decide, by decide⟩

/-- C6 (amended): deduplication by file_unique_id happens at enqueue time,
not in the worker.  When a message with content identity u is submitted for
download and every done queue row with identity u holds path P (at least one
exists), `_enqueue_media_download` sets the message media_file_path to P,
enqueues nothing, leaves the queue unchanged, and performs no transfer;
rows of other identities are untouched. -/
theorem c6_amended_dedup_at_enqueue (st : EnqueueState) (msg_id chat_id : Int)
    (file_size : Option Int) (u acc P : String) (max_mb : Option Int)
    (media_dir : Option String) (nextId : Nat) (now : Int)
    (hpref : prefEnabled st.prefs chat_id acc = true)
    (hsize : sizeExceeds max_mb file_size = false)
    (hex : ∃ d ∈ st.queue, d.file_unique_id = some u ∧ d.status = DStatus.done
      ∧ d.path = some P)
    (hall : ∀ d ∈ st.queue, d.file_unique_id = some u → d.status = DStatus.done →
      d.path = some P) :
    (enqueue_media_download st msg_id chat_id file_size (some u) acc max_mb media_dir
        nextId now).queue = st.queue
    ∧ (∀ r ∈ (enqueue_media_download st msg_id chat_id file_size (some u) acc max_mb
        media_dir nextId now).messages,
        sameIdentity chat_id msg_id acc r = true → r.media_file_path = some P)
    ∧ (∀ r ∈ (enqueue_media_download st msg_id chat_id file_size (some u) acc max_mb
        media_dir nextId now).messages,
        sameIdentity chat_id msg_id acc r = false → r ∈ st.messages) := by
  have hq : get_downloaded_path_by_unique_id st.queue (some u) = some P := by
    unfold get_downloaded_path_by_unique_id
    dsimp only
    obtain ⟨d, hd, hdu, hds, hdp⟩ := hex
    have hdf : d ∈ st.queue.filter (fun q =>
        decide (q.file_unique_id = some u) && decide (q.status = DStatus.done)
          && q.path.isSome) := by
      rw [List.mem_filter]
      exact ⟨hd, by simp [hdu, hds, hdp]⟩
    have hne : (st.queue.filter (fun q =>
        decide (q.file_unique_id = some u) && decide (q.status = DStatus.done)
          && q.path.isSome)).insertionSort updatedDesc ≠ [] := by
      intro hempty
      rw [← List.mem_insertionSort updatedDesc, hempty] at hdf
      exact absurd hdf (List.not_mem_nil _)
    rw [List.head?_eq_head hne]
    have hhm := List.head_mem hne
    rw [List.mem_insertionSort, List.mem_filter] at hhm
    obtain ⟨hhq, hhp⟩ := hhm
    rcases Bool.and_eq_true_iff.mp hhp with ⟨hh1, -⟩
    rcases Bool.and_eq_true_iff.mp hh1 with ⟨hhu, hhs⟩
    have := hall _ hhq (by simpa using hhu) (by simpa using hhs)
    simp [this]
  unfold enqueue_media_download
  rw [hpref, hsize, hq]
  simp only [Bool.not_true, Bool.false_eq_true, if_false, ite_false]
  refine ⟨by trivial, ?_, ?_⟩
  · intro r hr hid
    obtain ⟨x, hx, rfl⟩ := List.mem_map.mp hr
    by_cases hxid : sameIdentity chat_id msg_id acc x = true
    · rw [if_pos hxid]
    · rw [if_neg hxid] at hid ⊢
      exact absurd hid hxid
  · intro r hr hid
    obtain ⟨x, hx, rfl⟩ := List.mem_map.mp hr
    by_cases hxid : sameIdentity chat_id msg_id acc x = true
    · rw [if_pos hxid] at hid
      have : sameIdentity chat_id msg_id acc
          ({ x with media_file_path := some P } : MessageRow) = true := hxid
      rw [hid] at this
      exact absurd this (by simp)
    · rw [if_neg hxid]
      exact hx

/-- Sample enqueue state for the C6 witness: one message row of identity
(100, 2, A) and the done queue row of content identity x. -/
def sampleEnqState : EnqueueState :=
  { messages := [sampleRow 2], queue := [dupDoneItem], prefs := [] }

/-- Witness for C6 (amended): enqueuing message 2 with content identity x
reuses path P, leaves the queue unchanged, and updates the message row. -/
theorem c6_witness :
    prefEnabled sampleEnqState.prefs 100 "A" = true
    ∧ sizeExceeds none none = false
    ∧ (enqueue_media_download sampleEnqState 2 100 none (some "x") "A" none none 5 9).queue
        = [dupDoneItem]
    ∧ ({ sampleRow 2 with media_file_path := some "P" } : MessageRow).media_file_path
        = some "P" := by
  have h := c6_amended_dedup_at_enqueue sampleEnqState 2 100 none "x" "A" "P" none none 5 9
    rfl rfl ⟨dupDoneItem, by decide, by decide, by decide, by decide⟩ (by decide)
  refine ⟨rfl, rfl, h.1, ?_⟩
  exact h.2.1 { sampleRow 2 with media_file_path := some "P" } (by decide) (by decide)

/-! ## Persistence and identity machinery (claim C7) -/

/-- Is some row of this composite identity persisted? -/
def idPersisted (table : List MessageRow) (chat_id msg_id : Int)
    (account_phone : String) : Bool :=
  table.any (sameIdentity chat_id msg_id account_phone)

/-- Unfolding of the identity test. -/
theorem sameIdentity_iff_key (c m : Int) (a : String) (r : MessageRow) :
    sameIdentity c m a r = true ↔ r.chat_id = c ∧ r.msg_id = m ∧ r.account_phone = a := by
  simp [sameIdentity, and_assoc]

/-- Identity tests ignore every field an identity-preserving map rewrites. -/
theorem idPersisted_map (table : List MessageRow) (f : MessageRow → MessageRow)
    (c m : Int) (a : String)
    (hf : ∀ r, sameIdentity c m a (f r) = sameIdentity c m a r) :
    idPersisted (table.map f) c m a = idPersisted table c m a := by
  unfold idPersisted
  rw [List.any_map]
  congr 1
  funext r
  exact hf r

/-- Effect of the message upsert on identity presence: the upserted identity
becomes present, all others are untouched. -/
theorem idPersisted_insert_message (table : List MessageRow) (b : InsertArgs)
    (now : Int) (c m : Int) (a : String) :
    idPersisted (insert_message table b now) c m a =
      (idPersisted table c m a
        || (decide (b.chat_id = c) && decide (b.msg_id = m)
            && decide (b.account_phone = a))) := by
  unfold insert_message
  split
  · next hex =>
    rw [idPersisted_map table _ c m a (fun r => by split <;> rfl)]
    cases hmatch : (decide (b.chat_id = c) && decide (b.msg_id = m)
        && decide (b.account_phone = a)) with
    | false => simp
    | true =>
      rcases Bool.and_eq_true_iff.mp hmatch with ⟨h1, ha⟩
      rcases Bool.and_eq_true_iff.mp h1 with ⟨hc, hm⟩
      have hc' : b.chat_id = c := of_decide_eq_true hc
      have hm' : b.msg_id = m := of_decide_eq_true hm
      have ha' : b.account_phone = a := of_decide_eq_true ha
      subst hc'; subst hm'; subst ha'
      have hidp : idPersisted table b.chat_id b.msg_id b.account_phone = true := hex
      rw [hidp]
      simp
  · next hex =>
    unfold idPersisted
    rw [List.any_append]
    congr 1
    simp [sameIdentity, rowOfInsertArgs]

/-- Effect of the placeholder insert on identity presence. -/
theorem idPersisted_mark_unrecoverable (table : List MessageRow) (mc mm : Int)
    (ma reason : String) (now : Int) (c m : Int) (a : String) :
    idPersisted (mark_message_unrecoverable table mc mm ma reason now) c m a =
      (idPersisted table c m a
        || (decide (mc = c) && decide (mm = m) && decide (ma = a))) := by
  unfold mark_message_unrecoverable
  split
  · next hex =>
    cases hmatch : (decide (mc = c) && decide (mm = m) && decide (ma = a)) with
    | false => simp
    | true =>
      rcases Bool.and_eq_true_iff.mp hmatch with ⟨h1, ha⟩
      rcases Bool.and_eq_true_iff.mp h1 with ⟨hc, hm⟩
      have hc' : mc = c := of_decide_eq_true hc
      have hm' : mm = m := of_decide_eq_true hm
      have ha' : ma = a := of_decide_eq_true ha
      subst hc'; subst hm'; subst ha'
      have hidp : idPersisted table mc mm ma = true := hex
      rw [hidp]
      simp
  · unfold idPersisted
    rw [List.any_append]
    congr 1
    simp [sameIdentity, placeholderRow]

/-- Appending a log row never changes identity presence in messages. -/
theorem idPersisted_insert_message_log (st : DBState) (e : LogRow) (c m : Int)
    (a : String) :
    idPersisted (insert_message_log st e).messages c m a
      = idPersisted st.messages c m a := by
  unfold insert_message_log
  split
  · rfl
  · exact idPersisted_map _ _ c m a (fun r => by split <;> rfl)

/-- Effect of one ingest on identity presence. -/
theorem idPersisted_processNewMessage (threshold : Int) (st : DBState) (ev : MsgEvent)
    (acc : String) (now : Int) (c m : Int) (a : String) :
    idPersisted (processNewMessage threshold st ev acc now).state.messages c m a =
      (idPersisted st.messages c m a
        || (decide (ev.chat_id = c) && decide (ev.msg_id = m) && decide (acc = a))) := by
  show idPersisted (insert_message_log _ _).messages c m a = _
  rw [idPersisted_insert_message_log]
  have h := idPersisted_insert_message st.messages (eventInsertArgs ev acc) now c m a
  simpa [eventInsertArgs] using h

/-- Effect of a batch ingest on identity presence. -/
theorem idPersisted_ingestAll (threshold : Int) (evs : List MsgEvent) (st : DBState)
    (acc : String) (now : Int) (c m : Int) (a : String) :
    idPersisted (ingestAll threshold st evs acc now).messages c m a =
      (idPersisted st.messages c m a
        || evs.any (fun ev => decide (ev.chat_id = c) && decide (ev.msg_id = m)
            && decide (acc = a))) := by
  induction evs generalizing st with
  | nil => simp [ingestAll]
  | cons ev rest ih =>
    show idPersisted (ingestAll threshold
        (processNewMessage threshold st ev acc now).state rest acc now).messages c m a = _
    rw [ih, idPersisted_processNewMessage]
    simp [Bool.or_assoc]

/-- Effect of the placeholder fold on identity presence. -/
theorem idPersisted_markFold (ids : List Int) (table : List MessageRow) (mc : Int)
    (ma reason : String) (now : Int) (c m : Int) (a : String) :
    idPersisted (ids.foldl (fun t i => mark_message_unrecoverable t mc i ma reason now)
        table) c m a =
      (idPersisted table c m a
        || (decide (mc = c) && decide (ma = a) && ids.any (fun i => decide (i = m)))) := by
  induction ids generalizing table with
  | nil => simp
  | cons j rest ih =>
    rw [List.foldl_cons, ih, idPersisted_mark_unrecoverable]
    cases h1 : idPersisted table c m a <;>
      cases h2 : decide (mc = c) <;>
      cases h3 : decide (ma = a) <;>
      cases h4 : decide (j = m) <;>
      simp [h4]

/-- Placeholder inserts never remove rows. -/
theorem mark_unrecoverable_mem (table : List MessageRow) (mc mm : Int)
    (ma reason : String) (now : Int) (r : MessageRow) (hr : r ∈ table) :
    r ∈ mark_message_unrecoverable table mc mm ma reason now := by
  unfold mark_message_unrecoverable
  split
  · exact hr
  · exact List.mem_append.mpr (Or.inl hr)

/-- The placeholder fold never removes rows. -/
theorem markFold_mem (ids : List Int) (table : List MessageRow) (mc : Int)
    (ma reason : String) (now : Int) (r : MessageRow) (hr : r ∈ table) :
    r ∈ ids.foldl (fun t i => mark_message_unrecoverable t mc i ma reason now) table := by
  induction ids generalizing table with
  | nil => exact hr
  | cons j rest ih =>
    rw [List.foldl_cons]
    exact ih _ (mark_unrecoverable_mem _ _ _ _ _ _ _ hr)

/-- The placeholder fold inserts the exact placeholder row of every listed id
whose identity is absent when the fold starts. -/
theorem markFold_placeholder (ids : List Int) (id : Int) (hid : id ∈ ids)
    (table : List MessageRow) (mc : Int) (ma reason : String) (now : Int)
    (hnp : idPersisted table mc id ma = false) :
    placeholderRow mc id ma reason now
      ∈ ids.foldl (fun t i => mark_message_unrecoverable t mc i ma reason now) table := by
  induction ids generalizing table with
  | nil => cases hid
  | cons j rest ih =>
    rw [List.foldl_cons]
    by_cases hj : j = id
    · subst hj
      have hmem : placeholderRow mc j ma reason now
          ∈ mark_message_unrecoverable table mc j ma reason now := by
        unfold mark_message_unrecoverable
        rw [if_neg (by rw [show table.any (sameIdentity mc j ma) = idPersisted table mc j ma from rfl, hnp]; simp)]
        exact List.mem_append_right _ (List.mem_singleton_self _)
      exact markFold_mem rest _ mc ma reason now _ hmem
    · rcases List.mem_cons.mp hid with hcontra | hrest
      · exact absurd hcontra.symm hj
      · refine ih hrest _ ?_
        rw [idPersisted_mark_unrecoverable, hnp]
        simp [hj]

/-- The upsert keeps every row of a different identity. -/
theorem insert_message_mem (table : List MessageRow) (b : InsertArgs) (now : Int)
    (r : MessageRow) (hr : r ∈ table)
    (hne : sameIdentity b.chat_id b.msg_id b.account_phone r = false) :
    r ∈ insert_message table b now := by
  unfold insert_message
  split
  · refine List.mem_map.mpr ⟨r, hr, ?_⟩
    rw [if_neg (by rw [hne]; exact Bool.false_ne_true)]
  · exact List.mem_append.mpr (Or.inl hr)

/-- The log append keeps every message row of a different identity. -/
theorem insert_message_log_mem (st : DBState) (e : LogRow) (r : MessageRow)
    (hr : r ∈ st.messages)
    (hne : sameIdentity e.chat_id e.telegram_msg_id e.account_phone r = false) :
    r ∈ (insert_message_log st e).messages := by
  unfold insert_message_log
  split
  · exact hr
  · refine List.mem_map.mpr ⟨r, hr, ?_⟩
    rw [if_neg (by rw [hne]; exact Bool.false_ne_true)]

/-- One ingest keeps every row of a different identity. -/
theorem processNewMessage_mem (threshold : Int) (st : DBState) (ev : MsgEvent)
    (acc : String) (now : Int) (r : MessageRow) (hr : r ∈ st.messages)
    (hne : sameIdentity ev.chat_id ev.msg_id acc r = false) :
    r ∈ (processNewMessage threshold st ev acc now).state.messages := by
  show r ∈ (insert_message_log { messages := _, message_log := st.message_log } _).messages
  exact insert_message_log_mem _ (eventLogRow ev acc)
    r (insert_message_mem st.messages (eventInsertArgs ev acc) now r hr hne) hne

/-- A batch ingest keeps every row whose identity matches no event. -/
theorem ingestAll_mem (threshold : Int) (evs : List MsgEvent) (st : DBState)
    (acc : String) (now : Int) (r : MessageRow) (hr : r ∈ st.messages)
    (hne : ∀ ev ∈ evs, sameIdentity ev.chat_id ev.msg_id acc r = false) :
    r ∈ (ingestAll threshold st evs acc now).messages := by
  induction evs generalizing st with
  | nil => exact hr
  | cons ev rest ih =>
    show r ∈ (ingestAll threshold (processNewMessage threshold st ev acc now).state
      rest acc now).messages
    exact ih _ (processNewMessage_mem threshold st ev acc now r hr
      (hne ev (List.mem_cons_self ev rest))) (fun e he => hne e (List.mem_cons_of_mem ev he))

/-- The composite primary key of a message row. -/
def identKey (r : MessageRow) : Int × Int × String :=
  (r.chat_id, r.msg_id, r.account_phone)

/-- The primary-key invariant: one row per identity. -/
def identNodup (table : List MessageRow) : Prop :=
  (table.map identKey).Nodup

instance (table : List MessageRow) : Decidable (identNodup table) :=
  inferInstanceAs (Decidable ((table.map identKey).Nodup))

/-- Identity-preserving maps keep the primary-key invariant. -/
theorem identNodup_map (table : List MessageRow) (f : MessageRow → MessageRow)
    (hf : ∀ r, identKey (f r) = identKey r) (hn : identNodup table) :
    identNodup (table.map f) := by
  unfold identNodup at *
  rw [List.map_map]
  have hcomp : identKey ∘ f = identKey := funext hf
  rwa [hcomp]

/-- Appending one row of a fresh identity keeps the primary-key invariant. -/
theorem identNodup_append_fresh (table : List MessageRow) (x : MessageRow)
    (hn : identNodup table)
    (hfresh : table.any (sameIdentity x.chat_id x.msg_id x.account_phone) = false) :
    identNodup (table ++ [x]) := by
  unfold identNodup
  rw [List.map_append, List.nodup_append]
  refine ⟨hn, by simp, ?_⟩
  intro k hk1 hk2
  simp only [List.map_cons, List.map_nil, List.mem_singleton] at hk2
  obtain ⟨r, hr, hkr⟩ := List.mem_map.mp hk1
  subst hk2
  have hkey : r.chat_id = x.chat_id ∧ r.msg_id = x.msg_id
      ∧ r.account_phone = x.account_phone := by
    unfold identKey at hkr
    exact ⟨congrArg Prod.fst hkr, congrArg (fun p => p.2.1) hkr,
      congrArg (fun p => p.2.2) hkr⟩
  have : table.any (sameIdentity x.chat_id x.msg_id x.account_phone) = true :=
    List.any_eq_true.mpr ⟨r, hr, (sameIdentity_iff_key _ _ _ r).mpr hkey⟩
  rw [this] at hfresh
  exact absurd hfresh (by simp)

/-- The message upsert keeps the primary-key invariant. -/
theorem identNodup_insert_message (table : List MessageRow) (b : InsertArgs)
    (now : Int) (hn : identNodup table) : identNodup (insert_message table b now) := by
  unfold insert_message
  split
  · exact identNodup_map table _ (fun r => by split <;> rfl) hn
  · next hex =>
    refine identNodup_append_fresh table _ hn ?_
    rw [show (rowOfInsertArgs b now).chat_id = b.chat_id from rfl,
      show (rowOfInsertArgs b now).msg_id = b.msg_id from rfl,
      show (rowOfInsertArgs b now).account_phone = b.account_phone from rfl]
    exact Bool.not_eq_true _ ▸ Bool.of_not_eq_true hex

/-- The log append keeps the primary-key invariant. -/
theorem identNodup_insert_message_log (st : DBState) (e : LogRow)
    (hn : identNodup st.messages) : identNodup (insert_message_log st e).messages := by
  unfold insert_message_log
  split
  · exact hn
  · exact identNodup_map _ _ (fun r => by split <;> rfl) hn

/-- One ingest keeps the primary-key invariant. -/
theorem identNodup_processNewMessage (threshold : Int) (st : DBState) (ev : MsgEvent)
    (acc : String) (now : Int) (hn : identNodup st.messages) :
    identNodup (processNewMessage threshold st ev acc now).state.messages := by
  show identNodup (insert_message_log { messages := _, message_log := st.message_log } _).messages
  exact identNodup_insert_message_log _ _
    (identNodup_insert_message st.messages (eventInsertArgs ev acc) now hn)

/-- A batch ingest keeps the primary-key invariant. -/
theorem identNodup_ingestAll (threshold : Int) (evs : List MsgEvent) (st : DBState)
    (acc : String) (now : Int) (hn : identNodup st.messages) :
    identNodup (ingestAll threshold st evs acc now).messages := by
  induction evs generalizing st with
  | nil => exact hn
  | cons ev rest ih =>
    exact ih _ (identNodup_processNewMessage threshold st ev acc now hn)

/-- The placeholder insert keeps the primary-key invariant. -/
theorem identNodup_mark_unrecoverable (table : List MessageRow) (mc mm : Int)
    (ma reason : String) (now : Int) (hn : identNodup table) :
    identNodup (mark_message_unrecoverable table mc mm ma reason now) := by
  unfold mark_message_unrecoverable
  split
  · exact hn
  · next hex =>
    refine identNodup_append_fresh table _ hn ?_
    exact Bool.not_eq_true _ ▸ Bool.of_not_eq_true hex

/-- The placeholder fold keeps the primary-key invariant. -/
theorem identNodup_markFold (ids : List Int) (table : List MessageRow) (mc : Int)
    (ma reason : String) (now : Int) (hn : identNodup table) :
    identNodup (ids.foldl (fun t i => mark_message_unrecoverable t mc i ma reason now)
      table) := by
  induction ids generalizing table with
  | nil => exact hn
  | cons j rest ih =>
    rw [List.foldl_cons]
    exact ih _ (identNodup_mark_unrecoverable table mc j ma reason now hn)

/-- Under the primary-key invariant the per-chat id list is duplicate-free. -/
theorem msgIdsFor_nodup (table : List MessageRow) (c : Int) (a : String)
    (hn : identNodup table) : (msgIdsFor table c a).Nodup := by
  unfold msgIdsFor
  have htn : table.Nodup := List.Nodup.of_map identKey hn
  refine List.Nodup.map_on ?_ (htn.filter _)
  intro x hx y hy hxy
  rw [List.mem_filter] at hx hy
  rcases Bool.and_eq_true_iff.mp hx.2 with ⟨hxc, hxa⟩
  rcases Bool.and_eq_true_iff.mp hy.2 with ⟨hyc, hya⟩
  refine List.inj_on_of_nodup_map hn hx.1 hy.1 ?_
  unfold identKey
  rw [of_decide_eq_true hxc, of_decide_eq_true hyc, of_decide_eq_true hxa,
    of_decide_eq_true hya, hxy]

/-- An id is in the per-chat id list exactly when its identity is persisted. -/
theorem mem_msgIdsFor (table : List MessageRow) (c : Int) (a : String) (m : Int) :
    m ∈ msgIdsFor table c a ↔ idPersisted table c m a = true := by
  unfold msgIdsFor idPersisted
  rw [List.any_eq_true]
  constructor
  · intro hm
    obtain ⟨r, hr, hrm⟩ := List.mem_map.mp hm
    rw [List.mem_filter] at hr
    rcases Bool.and_eq_true_iff.mp hr.2 with ⟨hc, ha⟩
    exact ⟨r, hr.1, (sameIdentity_iff_key _ _ _ r).mpr
      ⟨of_decide_eq_true hc, hrm, of_decide_eq_true ha⟩⟩
  · rintro ⟨r, hr, hp⟩
    rw [sameIdentity_iff_key] at hp
    exact List.mem_map.mpr ⟨r, List.mem_filter.mpr
      ⟨hr, by simp [hp.1, hp.2.2]⟩, hp.2.1⟩

/-- Membership in the inclusive id range. -/
theorem mem_rangeIds (a b id : Int) : id ∈ rangeIds a b ↔ a ≤ id ∧ id ≤ b := by
  unfold rangeIds
  rw [List.mem_map]
  constructor
  · rintro ⟨k, hk, rfl⟩
    rw [List.mem_range] at hk
    omega
  · intro h
    refine ⟨(id - a).toNat, ?_, by omega⟩
    rw [List.mem_range]
    omega

/-- C7: after requesting gap range [gs, ge] from the platform and funnelling
the returned messages through the ingestor, every id of the range the
platform did not return is inserted as a placeholder Message whose
media_type is the sentinel unrecoverable and whose text carries the reason
tag; no already-persisted row is overwritten; every id of the range ends up
persisted; and the gap query no longer reports any range intersecting
[gs, ge]. -/
theorem c7_gap_range_resolved (threshold : Int) (st : DBState) (chat_id : Int)
    (acc : String) (gs ge : Int) (events : List MsgEvent) (now : Int) (limit : Nat)
    (hrange : gs ≤ ge)
    (hevc : ∀ ev ∈ events, ev.chat_id = chat_id)
    (hevr : ∀ ev ∈ events, gs ≤ ev.msg_id ∧ ev.msg_id ≤ ge)
    (hgap : ∀ id ∈ rangeIds gs ge, idPersisted st.messages chat_id id acc = false)
    (hn : identNodup st.messages) :
    (∀ id ∈ rangeIds gs ge, id ∉ events.map (fun ev => ev.msg_id) →
      placeholderRow chat_id id acc "telegram_missing" now
        ∈ (processGapRange threshold st chat_id acc gs ge events now).messages)
    ∧ (placeholderRow chat_id gs acc "telegram_missing" now).media_type
        = some "unrecoverable"
    ∧ (placeholderRow chat_id gs acc "telegram_missing" now).text
        = some "__UNRECOVERABLE__:telegram_missing"
    ∧ (∀ r ∈ st.messages,
        r ∈ (processGapRange threshold st chat_id acc gs ge events now).messages)
    ∧ (∀ id ∈ rangeIds gs ge,
        idPersisted (processGapRange threshold st chat_id acc gs ge events now).messages
          chat_id id acc = true)
    ∧ (∀ g ∈ get_chat_gaps
          (processGapRange threshold st chat_id acc gs ge events now).messages
          chat_id acc limit,
        g.gap_end < gs ∨ ge < g.gap_start) := by
  have hresult : (processGapRange threshold st chat_id acc gs ge events now).messages
      = ((rangeIds gs ge).filter
          (fun i => !(events.map (fun ev => ev.msg_id)).contains i)).foldl
        (fun t i => mark_message_unrecoverable t chat_id i acc "telegram_missing" now)
        (ingestAll threshold st events acc now).messages := rfl
  have hnotseen : ∀ id : Int, id ∉ events.map (fun ev => ev.msg_id) →
      events.any (fun ev => decide (ev.chat_id = chat_id) && decide (ev.msg_id = id)
        && decide (acc = acc)) = false := by
    intro id hid
    cases hany : events.any (fun ev => decide (ev.chat_id = chat_id)
        && decide (ev.msg_id = id) && decide (acc = acc)) with
    | false => rfl
    | true =>
      obtain ⟨ev, hev, hp⟩ := List.any_eq_true.mp hany
      rcases Bool.and_eq_true_iff.mp hp with ⟨hp1, -⟩
      rcases Bool.and_eq_true_iff.mp hp1 with ⟨-, hm⟩
      exact absurd (of_decide_eq_true hm ▸ List.mem_map_of_mem (fun ev => ev.msg_id) hev)
        hid
  have hmissing_mem : ∀ id ∈ rangeIds gs ge, id ∉ events.map (fun ev => ev.msg_id) →
      id ∈ (rangeIds gs ge).filter
        (fun i => !(events.map (fun ev => ev.msg_id)).contains i) := by
    intro id hidr hidn
    rw [List.mem_filter]
    exact ⟨hidr, by simp [hidn]⟩
  have hingest_np : ∀ id ∈ rangeIds gs ge, id ∉ events.map (fun ev => ev.msg_id) →
      idPersisted (ingestAll threshold st events acc now).messages chat_id id acc
        = false := by
    intro id hidr hidn
    rw [idPersisted_ingestAll, hgap id hidr, hnotseen id hidn]
    rfl
  have hplaceholders : ∀ id ∈ rangeIds gs ge, id ∉ events.map (fun ev => ev.msg_id) →
      placeholderRow chat_id id acc "telegram_missing" now
        ∈ (processGapRange threshold st chat_id acc gs ge events now).messages := by
    intro id hidr hidn
    rw [hresult]
    exact markFold_placeholder _ id (hmissing_mem id hidr hidn) _ chat_id acc
      "telegram_missing" now (hingest_np id hidr hidn)
  have hframe : ∀ r ∈ st.messages,
      r ∈ (processGapRange threshold st chat_id acc gs ge events now).messages := by
    intro r hr
    have hne : ∀ ev ∈ events, sameIdentity ev.chat_id ev.msg_id acc r = false := by
      intro ev hev
      cases hsi : sameIdentity ev.chat_id ev.msg_id acc r with
      | false => rfl
      | true =>
        have hidp : idPersisted st.messages ev.chat_id ev.msg_id acc = true :=
          List.any_eq_true.mpr ⟨r, hr, hsi⟩
        rw [hevc ev hev] at hidp
        rw [hgap ev.msg_id ((mem_rangeIds gs ge ev.msg_id).mpr (hevr ev hev))] at hidp
        exact absurd hidp (by simp)
    rw [hresult]
    exact markFold_mem _ _ chat_id acc "telegram_missing" now r
      (ingestAll_mem threshold events st acc now r hr hne)
  have hall : ∀ id ∈ rangeIds gs ge,
      idPersisted (processGapRange threshold st chat_id acc gs ge events now).messages
        chat_id id acc = true := by
    intro id hidr
    rw [hresult, idPersisted_markFold]
    by_cases hseen : id ∈ events.map (fun ev => ev.msg_id)
    · obtain ⟨ev, hev, hevm⟩ := List.mem_map.mp hseen
      have hany : events.any (fun e => decide (e.chat_id = chat_id)
          && decide (e.msg_id = id) && decide (acc = acc)) = true :=
        List.any_eq_true.mpr ⟨ev, hev, by simp [hevc ev hev, hevm]⟩
      rw [idPersisted_ingestAll, hany]
      simp
    · have hmem := hmissing_mem id hidr hseen
      have hany : ((rangeIds gs ge).filter
          (fun i => !(events.map (fun ev => ev.msg_id)).contains i)).any
          (fun i => decide (i = id)) = true :=
        List.any_eq_true.mpr ⟨id, hmem, by simp⟩
      rw [hany]
      simp
  have hfinal_nodup : identNodup
      (processGapRange threshold st chat_id acc gs ge events now).messages := by
    rw [hresult]
    exact identNodup_markFold _ _ chat_id acc "telegram_missing" now
      (identNodup_ingestAll threshold events st acc now hn)
  refine ⟨hplaceholders, rfl, rfl, hframe, hall, ?_⟩
  intro g hg
  by_contra hcon
  push_neg at hcon
  obtain ⟨h1, h2⟩ := hcon
  have hg' : g ∈ gapsOfIds
      ((msgIdsFor (processGapRange threshold st chat_id acc gs ge events now).messages
        chat_id acc).insertionSort (· ≤ ·)) := by
    unfold get_chat_gaps at hg
    have hmem := List.Sublist.mem hg (List.take_sublist _ _)
    rw [List.mem_insertionSort] at hmem
    exact hmem
  obtain ⟨i, p, n, hp, hnn, hgt, hgeq⟩ := (mem_gapsOfIds _ g).mp hg'
  have hse : g.gap_start = p + 1 ∧ g.gap_end = n - 1 := by rw [hgeq]; exact ⟨rfl, rfl⟩
  have hkstart : g.gap_start ≤ max gs g.gap_start := le_max_right _ _
  have hkend : max gs g.gap_start ≤ g.gap_end := by
    refine max_le h1 ?_
    omega
  have hkge : max gs g.gap_start ≤ ge := max_le hrange h2
  have hkp := hall (max gs g.gap_start)
    ((mem_rangeIds gs ge _).mpr ⟨le_max_left _ _, hkge⟩)
  have hkmem : max gs g.gap_start
      ∈ (msgIdsFor (processGapRange threshold st chat_id acc gs ge events now).messages
        chat_id acc).insertionSort (· ≤ ·) := by
    rw [List.mem_insertionSort, mem_msgIdsFor]
    exact hkp
  have hpw := pairwise_lt_insertionSort _
    (msgIdsFor_nodup _ chat_id acc hfinal_nodup)
  exact absurd hkmem
    (not_mem_of_mem_gapsOfIds _ hpw g hg' (max gs g.gap_start) hkstart hkend)

/-- Store holding the two boundary messages 9 and 13 of chat 100, so that
[10, 12] is a gap (for the C7 witness). -/
def gapBoundState : DBState :=
  { messages := [sampleRow 9, sampleRow 13], message_log := [] }

/-- Witness for C7 at the spec scenario: range [10, 12] requested, platform
returns only id 11; ids 10 and 12 become unrecoverable placeholders, id 11
is persisted, and the gap query reports nothing. -/
theorem c7_witness :
    (10 : Int) ≤ 12
    ∧ placeholderRow 100 10 "A" "telegram_missing" 50
        ∈ (processGapRange 10 gapBoundState 100 "A" 10 12 [sampleEvent 11] 50).messages
    ∧ placeholderRow 100 12 "A" "telegram_missing" 50
        ∈ (processGapRange 10 gapBoundState 100 "A" 10 12 [sampleEvent 11] 50).messages
    ∧ idPersisted (processGapRange 10 gapBoundState 100 "A" 10 12 [sampleEvent 11]
        50).messages 100 11 "A" = true
    ∧ get_chat_gaps (processGapRange 10 gapBoundState 100 "A" 10 12 [sampleEvent 11]
        50).messages 100 "A" 1000 = [] := by
  have h := c7_gap_range_resolved 10 gapBoundState 100 "A" 10 12 [sampleEvent 11] 50 1000
    (by decide) (by decide) (by decide) (by decide) (by decide)
  refine ⟨by decide, ?_, ?_, ?_, by decide⟩
  · exact h.1 10 (by decide) (by decide)
  · exact h.1 12 (by decide) (by decide)
  · exact h.2.2.2.2.1 11 (by decide)

end TelegramMonitor
